import Mathlib

/-!
Verification of the Shockley-Queisser limit calculator
(`ShockleyQueisserCore.py`, `ShockleyQueisserDJ.py`, `ShockleyQueisserTJ.py`).

The numerical engine is embedded shallowly over an arbitrary
`LinearOrderedField` (instantiated at `ℚ` for executable checks and at `ℝ`
when the real exponential/logarithm of the source matters).  Python floats
are modelled by exact field arithmetic; `math.exp` / `math.log` enter as
explicit function parameters `expf` / `logf` so that theorems can either
quantify over well-behaved exponentials or instantiate `Real.exp` /
`Real.log`.
-/

set_option maxRecDepth 40000

namespace SQ

/-! ## Physical constants (`ShockleyQueisserCore.__init__`, lines 138-143) -/

/-- Constant `self.pi = 3.14159265358979` -/
def pi (α : Type*) [LinearOrderedField α] : α := 314159265358979 / 10 ^ 14

/-- Constant `self.q = 1.602176e-19` (elementary charge) -/
def q (α : Type*) [LinearOrderedField α] : α := 1602176 / 10 ^ 25

/-- Constant `self.h = 6.626068e-34` (Planck constant) -/
def h (α : Type*) [LinearOrderedField α] : α := 6626068 / 10 ^ 40

/-- Constant `self.c = 2.99792458e+8` (light speed in vacuum) -/
def c (α : Type*) [LinearOrderedField α] : α := 299792458

/-- Constant `self.hc = 1.986445213e-25` -/
def hc (α : Type*) [LinearOrderedField α] : α := 1986445213 / 10 ^ 34

/-- Constant `self.nmeV = 1239.84207` (nm to eV conversion) -/
def nmeV (α : Type*) [LinearOrderedField α] : α := 123984207 / 10 ^ 5

/-! ## `calculate` parameter handling (`ShockleyQueisserCore.calculate`) -/

/-- Line 245 of `ShockleyQueisserCore.py`:
`self.Temperature = Temperature if ((Temperature >= 100.0) and (TargetBandgap <= 700.0)) else 300.0`.
Note that the second conjunct of the guard tests `TargetBandgap`, not
`Temperature`, exactly as in the source. -/
def calcTemperature (Temperature TargetBandgap : ℚ) : ℚ :=
  if 100 ≤ Temperature ∧ TargetBandgap ≤ 700 then Temperature else 300

/-- The range documented by the comment on line 244
(`Temperature: in Kelvin (from 100 K to 700 K)`) and enforced by the two
other temperature checks in the same file (`start`, lines 734 and 763-764):
accept `Temperature` iff it lies in `[100, 700]`, else fall back to 300. -/
def calcTemperatureIntended (Temperature : ℚ) : ℚ :=
  if 100 ≤ Temperature ∧ Temperature ≤ 700 then Temperature else 300

/-! ## Series combination of sub-cell J-V curves

`ShockleyQueisserTJ.py` lines 74-87 combine `aTargetLen` sub-cell curves at
sample index `ii` by summing voltages and keeping the running current `tJ`,
replacing it whenever `aJ[jj][ii] > tJ` (with an unconditional assignment at
`jj == 0`).  Every curve is indexed directly at `ii`; a Python `IndexError`
(index out of the range of a shorter curve) is modelled by `none`. -/

/-- One iteration step state: the running voltage sum and the running current
(`none` before the first cell has been processed, mirroring that `tJ` is
unconditionally overwritten at `jj == 0`). -/
def tjFold (ii : ℕ) : List (List ℚ × List ℚ) → ℚ × Option ℚ → Option (ℚ × Option ℚ)
  | [], st => some st
  | cell :: rest, st =>
    match cell.1[ii]?, cell.2[ii]? with
    | some v, some j =>
        tjFold ii rest
          (st.1 + v,
           match st.2 with
           | none => some j
           | some tJ => some (if j > tJ then j else tJ))
    | _, _ => none

/-- The multijunction combination at sample index `ii`
(`ShockleyQueisserTJ.py` lines 74-87): combined voltage is the sum of the
per-cell voltages at `ii`, combined current is the running `tJ`;
`none` models the `IndexError` raised on an out-of-range read. -/
def tjCombineAt (cells : List (List ℚ × List ℚ)) (ii : ℕ) : Option (ℚ × ℚ) :=
  (tjFold ii cells (0, none)).map fun st => (st.1, st.2.getD 0)

/-- The double-junction combination at sample index `nn`
(`ShockleyQueisserDJ.py` lines 76-89).  `V0, J0, V1, J1` are the two cells'
voltage and current arrays.  An exhausted voltage index is padded by the last
value (`aV[cc][nn] if (nn < len(aV[cc])) else aV[cc][len(aV[cc]) - 1]`), and
the current assignment is guarded by `nn < len(aV[cc])` as in the source;
the comparison `aJ[cc][nn] > tJ` for the second cell reads the raw index.
`none` models a Python `IndexError`. -/
def djCombineAt (V0 J0 V1 J1 : List ℚ) (nn : ℕ) : Option (ℚ × ℚ) := do
  let tV0 ← if nn < V0.length then V0[nn]? else V0[V0.length - 1]?
  let tJ0 ← if nn < V0.length then J0[nn]? else J0[V0.length - 1]?
  let v1 ← if nn < V1.length then V1[nn]? else V1[V1.length - 1]?
  let j1raw ← J1[nn]?
  let tJ ← if j1raw > tJ0 then
             (if nn < V1.length then J1[nn]? else J1[V1.length - 1]?)
           else some tJ0
  pure (tV0 + v1, tJ)

/-! ### Helper lemmas: `foldl max` -/

lemma foldl_max_le {l : List ℚ} {a : ℚ} : a ≤ l.foldl max a := by
  induction l generalizing a with
  | nil => exact le_refl a
  | cons x t ih => exact le_trans (le_max_left a x) ih

lemma foldl_max_mem (l : List ℚ) (a : ℚ) : l.foldl max a = a ∨ l.foldl max a ∈ l := by
  induction l generalizing a with
  | nil => exact Or.inl rfl
  | cons x t ih =>
    rcases ih (max a x) with hmem | hmem
    · rcases le_total a x with hax | hxa
      · right
        rw [List.foldl_cons, hmem, max_eq_right hax]
        exact List.mem_cons_self x t
      · left
        rw [List.foldl_cons, hmem, max_eq_left hxa]
    · right
      rw [List.foldl_cons]
      exact List.mem_cons_of_mem x hmem

lemma le_foldl_max {l : List ℚ} {a x : ℚ} (hx : x ∈ l) : x ≤ l.foldl max a := by
  induction l generalizing a with
  | nil => cases hx
  | cons y t ih =>
    rcases List.mem_cons.mp hx with hx | hx
    · subst hx
      exact le_trans (le_max_right a x) foldl_max_le
    · exact ih hx

/-! ### Characterization of the multijunction fold -/

lemma tjFold_spec (ii : ℕ) (cells : List (List ℚ × List ℚ)) (v0 j0 : ℚ)
    (hin : ∀ cl ∈ cells, ii < cl.1.length ∧ ii < cl.2.length) :
    tjFold ii cells (v0, some j0) =
      some (v0 + (cells.map fun cl => cl.1.getD ii 0).sum,
            some ((cells.map fun cl => cl.2.getD ii 0).foldl max j0)) := by
  induction cells generalizing v0 j0 with
  | nil => simp [tjFold]
  | cons cl rest ih =>
    obtain ⟨hv, hj⟩ := hin cl (List.mem_cons_self cl rest)
    have hvget : cl.1[ii]? = some (cl.1.getD ii 0) := by
      rw [List.getElem?_eq_getElem hv, List.getD_eq_getElem cl.1 0 hv]
    have hjget : cl.2[ii]? = some (cl.2.getD ii 0) := by
      rw [List.getElem?_eq_getElem hj, List.getD_eq_getElem cl.2 0 hj]
    have hrest : ∀ cl' ∈ rest, ii < cl'.1.length ∧ ii < cl'.2.length :=
      fun cl' h => hin cl' (List.mem_cons_of_mem cl h)
    rw [tjFold, hvget, hjget]
    simp only
    rw [ih _ _ hrest]
    have hmax : (if j0 < cl.2.getD ii 0 then cl.2.getD ii 0 else j0)
        = max j0 (cl.2.getD ii 0) := by
      rcases le_or_lt (cl.2.getD ii 0) j0 with hle | hlt
      · rw [if_neg (not_lt.mpr hle), max_eq_left hle]
      · rw [if_pos hlt, max_eq_right (le_of_lt hlt)]
    simp only [List.map_cons, List.sum_cons, List.foldl_cons, gt_iff_lt, hmax, add_assoc]

/-- A concrete two-cell configuration with one sample each. -/
def twoCells : List (List ℚ × List ℚ) := [([0], [-5]), ([0], [-3])]

/-- Another concrete two-cell configuration (used as a witness input). -/
def twoCellsW : List (List ℚ × List ℚ) := [([1], [-5]), ([2], [-3])]

/-- C1 counterexample: at sample index 0 of `twoCells` the combination loop of
`ShockleyQueisserTJ.py` (lines 74-87) produces the current `-3`, which is the
*maximum* (least negative) of the two cell currents, not the minimum `-5`
claimed; so the combined current does not equal the minimum (most negative)
per-cell current. -/
theorem C1_counterexample :
    tjCombineAt twoCells 0 = some (0, -3) ∧ min (-5 : ℚ) (-3) = -5 ∧ ((-3 : ℚ) ≠ -5) := by
  refine ⟨by norm_num [tjCombineAt, tjFold, twoCells], by norm_num [min_def], by norm_num⟩

/-- C1 (amended): for every sample index in range of all cells, the combined
current produced by the multijunction loop is the *maximum* of the per-cell
currents at that index (the least negative value — since each J runs from
-JSC to 0, this is the current of smallest magnitude, the series-limiting
one), and the combined voltage is the sum of the per-cell voltages. -/
theorem C1_tj_combined_current_is_max (cells : List (List ℚ × List ℚ)) (ii : ℕ)
    (hne : cells ≠ [])
    (hin : ∀ cl ∈ cells, ii < cl.1.length ∧ ii < cl.2.length) :
    ∃ tJ, tjCombineAt cells ii
        = some ((cells.map fun cl => cl.1.getD ii 0).sum, tJ) ∧
      tJ ∈ cells.map (fun cl => cl.2.getD ii 0) ∧
      ∀ x ∈ cells.map (fun cl => cl.2.getD ii 0), x ≤ tJ := by
  match cells, hne with
  | cl :: rest, _ =>
    obtain ⟨hv, hj⟩ := hin cl (List.mem_cons_self cl rest)
    have hvget : cl.1[ii]? = some (cl.1.getD ii 0) := by
      rw [List.getElem?_eq_getElem hv, List.getD_eq_getElem cl.1 0 hv]
    have hjget : cl.2[ii]? = some (cl.2.getD ii 0) := by
      rw [List.getElem?_eq_getElem hj, List.getD_eq_getElem cl.2 0 hj]
    have hrest : ∀ cl' ∈ rest, ii < cl'.1.length ∧ ii < cl'.2.length :=
      fun cl' hm => hin cl' (List.mem_cons_of_mem cl hm)
    refine ⟨(rest.map fun cl' => cl'.2.getD ii 0).foldl max (cl.2.getD ii 0), ?_, ?_, ?_⟩
    · unfold tjCombineAt
      rw [tjFold, hvget, hjget]
      simp only
      rw [tjFold_spec ii rest _ _ hrest]
      simp [add_assoc]
    · rcases foldl_max_mem (rest.map fun cl' => cl'.2.getD ii 0) (cl.2.getD ii 0) with
        heq | hmem
      · rw [heq, List.map_cons]
        exact List.mem_cons_self _ _
      · rw [List.map_cons]
        exact List.mem_cons_of_mem _ hmem
    · intro x hx
      rw [List.map_cons] at hx
      rcases List.mem_cons.mp hx with hx | hx
      · subst hx; exact foldl_max_le
      · exact le_foldl_max hx

/-- Witness for C1: the amended statement applied to a concrete
two-cell configuration. -/
theorem C1_witness :
    (twoCellsW ≠ [] ∧ ∀ cl ∈ twoCellsW, 0 < cl.1.length ∧ 0 < cl.2.length) ∧
      ∃ tJ, tjCombineAt twoCellsW 0
          = some ((twoCellsW.map fun cl => cl.1.getD 0 0).sum, tJ) ∧
        tJ ∈ twoCellsW.map (fun cl => cl.2.getD 0 0) ∧
        ∀ x ∈ twoCellsW.map (fun cl => cl.2.getD 0 0), x ≤ tJ :=
  ⟨⟨by decide, by decide⟩,
   C1_tj_combined_current_is_max twoCellsW 0 (by decide) (by decide)⟩

/-- C2: the code violates the documented temperature fallback.  With
`Temperature = 800` (outside `[100, 700]`) and `TargetBandgap = 1.1`, line
245 of `ShockleyQueisserCore.py` keeps 800 instead of falling back to 300,
because it tests `TargetBandgap <= 700.0` where the line-244 comment
(`Temperature: in Kelvin (from 100 K to 700 K)`) and the two other
temperature checks of the same file (lines 734 and 763-764) require
`Temperature <= 700.0`; the intended check yields 300. -/
theorem C2_temperature_clamp_bug :
    calcTemperature 800 (11 / 10) = 800 ∧ calcTemperature 800 (11 / 10) ≠ 300 ∧
      calcTemperatureIntended 800 = 300 := by
  norm_num [calcTemperature, calcTemperatureIntended]

/-- C3 counterexample: the multijunction loop of `ShockleyQueisserTJ.py`
does *not* pad an exhausted shorter curve by holding its last value: at
sample index 1, with the second cell having a single sample, it performs an
out-of-range read (Python `IndexError`, modelled by `none`) instead of
producing the padded combination. -/
theorem C3_counterexample :
    tjCombineAt [([0, 1], [-5, -4]), ([0], [-3])] 1 = none := by
  norm_num [tjCombineAt, tjFold]

/-- C3 (amended): only the double-junction loop (`ShockleyQueisserDJ.py`
lines 76-89) pads: past the end of the *first* cell's arrays it holds the
last voltage and current values of that cell (provided the raw comparison
read of the second cell's current stays in range), while the
triple-junction loop indexes every curve directly and fails out of range
(see the counterexample). -/
theorem C3_dj_pads_first_cell (V0 J0 V1 J1 : List ℚ) (nn : ℕ)
    (h0 : V0.length ≤ nn) (h0ne : V0 ≠ []) (hlen : J0.length = V0.length)
    (h1v : nn < V1.length) (h1j : nn < J1.length) :
    djCombineAt V0 J0 V1 J1 nn =
      some (V0.getD (V0.length - 1) 0 + V1.getD nn 0,
            max (J0.getD (V0.length - 1) 0) (J1.getD nn 0)) := by
  have hV0len : 0 < V0.length := List.length_pos.mpr h0ne
  have hV0idx : V0.length - 1 < V0.length := Nat.sub_lt hV0len Nat.one_pos
  have hJ0idx : V0.length - 1 < J0.length := by rw [hlen]; exact hV0idx
  have hnV0 : ¬ nn < V0.length := not_lt.mpr h0
  have hV0get : V0[V0.length - 1]? = some (V0.getD (V0.length - 1) 0) := by
    rw [List.getElem?_eq_getElem hV0idx, List.getD_eq_getElem V0 0 hV0idx]
  have hJ0get : J0[V0.length - 1]? = some (J0.getD (V0.length - 1) 0) := by
    rw [List.getElem?_eq_getElem hJ0idx, List.getD_eq_getElem J0 0 hJ0idx]
  have hV1get : V1[nn]? = some (V1.getD nn 0) := by
    rw [List.getElem?_eq_getElem h1v, List.getD_eq_getElem V1 0 h1v]
  have hJ1get : J1[nn]? = some (J1.getD nn 0) := by
    rw [List.getElem?_eq_getElem h1j, List.getD_eq_getElem J1 0 h1j]
  unfold djCombineAt
  simp only [if_neg hnV0, if_pos h1v, hV0get, hJ0get, hV1get, hJ1get,
    Option.bind_eq_bind, Option.some_bind, gt_iff_lt]
  rcases le_or_lt (J1.getD nn 0) (J0.getD (V0.length - 1) 0) with hle | hlt
  · rw [if_neg (not_lt.mpr hle), max_eq_left hle]
    rfl
  · rw [if_pos hlt, max_eq_right (le_of_lt hlt)]
    rfl

/-- Witness for C3: the amended double-junction padding statement applied to
a concrete pair of curves of lengths 1 and 2 at index 1. -/
theorem C3_witness :
    (([5] : List ℚ).length ≤ 1 ∧ (1 : ℕ) < ([0, 1] : List ℚ).length) ∧
      djCombineAt [5] [-7] [0, 1] [-3, -2] 1 =
        some ((5 : ℚ) + 1, max (-7 : ℚ) (-2)) :=
  ⟨⟨by decide, by decide⟩, by
    have hres := C3_dj_pads_first_cell [5] [-7] [0, 1] [-3, -2] 1
      (by decide) (by decide) (by decide) (by decide) (by decide)
    simpa using hres⟩

/-! ## Trapezoidal integration (`sp.trapz`)

`np.trapz(y, x)` computes `Σ_i (x_{i+1} - x_i) * (y_i + y_{i+1}) / 2`
(and `0` when fewer than two samples are given).  `trapzP` works on a list
of `(x, y)` pairs; `trapz y x` matches the NumPy argument order. -/

def trapzP {α : Type*} [LinearOrderedField α] : List (α × α) → α
  | (x1, y1) :: (x2, y2) :: t => (x2 - x1) * (y1 + y2) / 2 + trapzP ((x2, y2) :: t)
  | _ => 0

def trapz {α : Type*} [LinearOrderedField α] (y x : List α) : α := trapzP (x.zip y)

/-! ## Spectrum loading (`ShockleyQueisserCore.loadSpectrum`, lines 524-581) -/

/-- The data-consistency checks of lines 537-545: at least 100 rows, every
wavelength in `[200, 10000]`, every irradiance in `[0, 10]`, wavelengths
strictly increasing (`isIncSorted`).  Rows are `(wavelength, irradiance)`
pairs, so the two columns have equal length by construction. -/
def specDataOK {α : Type*} [LinearOrderedField α] (spec : List (α × α)) : Prop :=
  100 ≤ spec.length ∧
  (∀ r ∈ spec, 200 ≤ r.1 ∧ r.1 ≤ 10000) ∧
  (∀ r ∈ spec, 0 ≤ r.2 ∧ r.2 ≤ 10) ∧
  (spec.map Prod.fst).Chain' (· < ·)

instance {α : Type*} [LinearOrderedField α] (spec : List (α × α)) :
    Decidable (specDataOK spec) :=
  inferInstanceAs (Decidable (100 ≤ spec.length ∧
    (∀ r ∈ spec, 200 ≤ r.1 ∧ r.1 ≤ 10000) ∧
    (∀ r ∈ spec, 0 ≤ r.2 ∧ r.2 ≤ 10) ∧
    (spec.map Prod.fst).Chain' (· < ·)))

/-! ### Integer skeletons

Concrete spectra used as test inputs have integer entries; evaluating the
model on them inside the kernel is done on `ℤ` (where `decide` reduces) and
transported to the field `α` by the cast lemmas below. -/

/-- Cast a list of integer rows into field-valued rows. -/
def castPairs (α : Type*) [LinearOrderedField α] (l : List (ℤ × ℤ)) : List (α × α) :=
  l.map fun p => ((p.1 : α), (p.2 : α))

/-- Twice the trapezoid sum, over the integers. -/
def trapzP2 : List (ℤ × ℤ) → ℤ
  | (x1, y1) :: (x2, y2) :: t => (x2 - x1) * (y1 + y2) + trapzP2 ((x2, y2) :: t)
  | _ => 0

lemma trapzP_castPairs {α : Type*} [LinearOrderedField α] (l : List (ℤ × ℤ)) :
    trapzP (castPairs α l) = (trapzP2 l : α) / 2 := by
  induction l with
  | nil => simp [castPairs, trapzP, trapzP2]
  | cons a t ih =>
    cases t with
    | nil => simp [castPairs, trapzP, trapzP2]
    | cons b t2 =>
      have hstep : castPairs α (a :: b :: t2)
          = ((a.1 : α), (a.2 : α)) :: ((b.1 : α), (b.2 : α)) :: castPairs α t2 := by
        simp [castPairs]
      have hrec : castPairs α (b :: t2) = ((b.1 : α), (b.2 : α)) :: castPairs α t2 := by
        simp [castPairs]
      rw [hstep, trapzP, ← hrec, ih, trapzP2]
      push_cast
      ring

/-- Executable strict-increase check over the integers. -/
def incSortedB : List ℤ → Bool
  | x :: y :: t => (decide (x < y)) && incSortedB (y :: t)
  | _ => true

lemma chain'_cast_of_incSortedB {α : Type*} [LinearOrderedField α] {l : List ℤ}
    (hs : incSortedB l = true) : (l.map (Int.cast : ℤ → α)).Chain' (· < ·) := by
  induction l with
  | nil => simp
  | cons a t ih =>
    cases t with
    | nil => simp
    | cons b t2 =>
      unfold incSortedB at hs
      rw [Bool.and_eq_true, decide_eq_true_eq] at hs
      simp only [List.map_cons, List.chain'_cons]
      refine ⟨by exact_mod_cast hs.1, ?_⟩
      have := ih hs.2
      simpa using this

lemma specDataOK_cast {α : Type*} [LinearOrderedField α] (lz : List (ℤ × ℤ))
    (h1 : 100 ≤ lz.length)
    (h2 : ∀ r ∈ lz, 200 ≤ r.1 ∧ r.1 ≤ 10000)
    (h3 : ∀ r ∈ lz, 0 ≤ r.2 ∧ r.2 ≤ 10)
    (h4 : incSortedB (lz.map Prod.fst) = true) :
    specDataOK (castPairs α lz) := by
  refine ⟨?_, ?_, ?_, ?_⟩
  · simpa [castPairs] using h1
  · intro r hr
    simp only [castPairs, List.mem_map] at hr
    obtain ⟨p, hp, rfl⟩ := hr
    obtain ⟨ha, hb⟩ := h2 p hp
    refine ⟨?_, ?_⟩
    · show (200 : α) ≤ (p.1 : α)
      exact_mod_cast ha
    · show (p.1 : α) ≤ (10000 : α)
      exact_mod_cast hb
  · intro r hr
    simp only [castPairs, List.mem_map] at hr
    obtain ⟨p, hp, rfl⟩ := hr
    obtain ⟨ha, hb⟩ := h3 p hp
    refine ⟨?_, ?_⟩
    · show (0 : α) ≤ (p.2 : α)
      exact_mod_cast ha
    · show (p.2 : α) ≤ (10 : α)
      exact_mod_cast hb
  · have hmap : (castPairs α lz).map Prod.fst = (lz.map Prod.fst).map (Int.cast : ℤ → α) := by
      simp [castPairs, List.map_map, Function.comp]
    rw [hmap]
    exact chain'_cast_of_incSortedB h4

/-- Total power `self.SolarPower = sp.trapz(self.Irradiance, x=self.Wavelength)` (line 549). -/
def SolarPower {α : Type*} [LinearOrderedField α] (spec : List (α × α)) : α :=
  trapz (spec.map Prod.snd) (spec.map Prod.fst)

lemma SolarPower_eq_trapzP {α : Type*} [LinearOrderedField α] (spec : List (α × α)) :
    SolarPower spec = trapzP spec := by
  unfold SolarPower trapz
  rw [List.zip_map']
  simp

/-- Predicate for: `loadSpectrum` succeeds iff the data checks pass and the total power is
not rejected; lines 550-552 reject exactly `SolarPower < 1.0` or
`SolarPower > 10000.0` (so the closed interval `[1, 10000]` is accepted). -/
def loadSpectrumOK {α : Type*} [LinearOrderedField α] (spec : List (α × α)) : Prop :=
  specDataOK spec ∧ ¬(SolarPower spec < 1 ∨ 10000 < SolarPower spec)

/-- A valid 100-row spectrum whose total trapezoidal power is exactly
10000 W/m²: constant irradiance 10 over 200..298 nm plus a final row at
1200 nm (`98 * 10 + 902 * 10 = 10000`). -/
def c8specZ : List (ℤ × ℤ) :=
  [(200, 10), (201, 10), (202, 10), (203, 10), (204, 10), (205, 10), (206, 10), (207, 10),
    (208, 10), (209, 10), (210, 10), (211, 10), (212, 10), (213, 10), (214, 10), (215, 10),
    (216, 10), (217, 10), (218, 10), (219, 10), (220, 10), (221, 10), (222, 10), (223, 10),
    (224, 10), (225, 10), (226, 10), (227, 10), (228, 10), (229, 10), (230, 10), (231, 10),
    (232, 10), (233, 10), (234, 10), (235, 10), (236, 10), (237, 10), (238, 10), (239, 10),
    (240, 10), (241, 10), (242, 10), (243, 10), (244, 10), (245, 10), (246, 10), (247, 10),
    (248, 10), (249, 10), (250, 10), (251, 10), (252, 10), (253, 10), (254, 10), (255, 10),
    (256, 10), (257, 10), (258, 10), (259, 10), (260, 10), (261, 10), (262, 10), (263, 10),
    (264, 10), (265, 10), (266, 10), (267, 10), (268, 10), (269, 10), (270, 10), (271, 10),
    (272, 10), (273, 10), (274, 10), (275, 10), (276, 10), (277, 10), (278, 10), (279, 10),
    (280, 10), (281, 10), (282, 10), (283, 10), (284, 10), (285, 10), (286, 10), (287, 10),
    (288, 10), (289, 10), (290, 10), (291, 10), (292, 10), (293, 10), (294, 10), (295, 10),
    (296, 10), (297, 10), (298, 10), (1200, 10)]

/-- The C8 spectrum over `ℚ`. -/
def c8spec : List (ℚ × ℚ) := castPairs ℚ c8specZ

lemma c8spec_ok : specDataOK c8spec :=
  specDataOK_cast c8specZ (by decide) (by decide) (by decide) (by decide)

lemma c8spec_power : SolarPower c8spec = 10000 := by
  rw [SolarPower_eq_trapzP, c8spec, trapzP_castPairs]
  have h2 : trapzP2 c8specZ = 20000 := by decide
  rw [h2]
  norm_num

/-- C8 counterexample: a spectrum whose trapezoidal total power is *exactly*
10000 W/m² passes all `loadSpectrum` checks (the claim says power exactly
10000 must be rejected, i.e. that the accepted set is the open interval, but
lines 550-552 reject only `< 1` or `> 10000`). -/
theorem C8_counterexample : SolarPower c8spec = 10000 ∧ loadSpectrumOK c8spec := by
  refine ⟨c8spec_power, ⟨c8spec_ok, ?_⟩⟩
  rw [c8spec_power]
  norm_num

/-- C8 (amended): for a spectrum passing the data checks, loading succeeds
iff the total integrated power lies in the *closed* interval `[1, 10000]`;
equivalently it fails iff the power is `< 1` or `> 10000` (power exactly 1
or exactly 10000 is accepted). -/
theorem C8_power_closed_interval {α : Type*} [LinearOrderedField α]
    (spec : List (α × α)) (h : specDataOK spec) :
    loadSpectrumOK spec ↔ 1 ≤ SolarPower spec ∧ SolarPower spec ≤ 10000 := by
  unfold loadSpectrumOK
  constructor
  · rintro ⟨-, hP⟩
    push_neg at hP
    exact hP
  · intro hP
    refine ⟨h, ?_⟩
    push_neg
    exact hP

/-- Witness for C8: the amended statement applied to the concrete spectrum. -/
theorem C8_witness :
    specDataOK c8spec ∧
      (loadSpectrumOK c8spec ↔ 1 ≤ SolarPower c8spec ∧ SolarPower c8spec ≤ 10000) :=
  ⟨c8spec_ok, C8_power_closed_interval c8spec c8spec_ok⟩

/-! ## JunctionSolver (`ShockleyQueisserCore.calculateEfficiency`, lines 596-649)

The body of `calculateEfficiency` runs inside a `try` block whose `except`
clause (lines 638-645) converts any raised exception into an error tuple
returned to the caller.  The model returns `Option (SQResult α)`: `none`
models that error tuple, and each `none` branch below is placed exactly
where the Python float pipeline raises:
* bandgap out of `[BandgapMin, BandgapMax]`: the explicit `raise` of line 601;
* `aJ0 = 0`: `aJSC / aJ0` yields `inf`/`nan` (no exception yet), and
  `np.arange(0.0, inf|nan, inf|nan)` then raises `ValueError`;
* non-positive `math.log` argument: `ValueError` at line 618;
* `aVstep = 0` (i.e. `aVOC = 0`): `np.arange` with zero step raises;
* `aFF` never assigned by the loop: `NameError` at the `return` of line 636;
* empty product array: `np.min` of an empty array raises (unreachable when
  the grid is non-empty).
`math.exp` and `math.log` are the parameters `expf` and `logf`. -/

/-- Condition `CutSpectrum = (BandgapTop > Bandgap) and (BandgapTop >= self.BandgapMin) and (BandgapTop <= self.BandgapMax)` (line 605). -/
def CutSpectrum {α : Type*} [LinearOrderedField α]
    (BandgapMin BandgapMax Bandgap BandgapTop : α) : Prop :=
  Bandgap < BandgapTop ∧ BandgapMin ≤ BandgapTop ∧ BandgapTop ≤ BandgapMax

instance {α : Type*} [LinearOrderedField α] (BandgapMin BandgapMax Bandgap BandgapTop : α) :
    Decidable (CutSpectrum BandgapMin BandgapMax Bandgap BandgapTop) :=
  inferInstanceAs (Decidable (_ ∧ _ ∧ _))

/-- Cutoff `aLambdaLow` (lines 604-608): `nmeV / BandgapTop` when the spectrum is
cut by a top cell, else `0.0`. -/
def aLambdaLowOf {α : Type*} [LinearOrderedField α]
    (BandgapMin BandgapMax Bandgap BandgapTop : α) : α :=
  if CutSpectrum BandgapMin BandgapMax Bandgap BandgapTop then nmeV α / BandgapTop else 0

/-- The rows selected by lines 609-613: wavelengths in
`[aLambdaLow, aLambda]` with `aLambda = nmeV / Bandgap`, paired with their
irradiance (`np.take` uses exactly the same index set `indexT`). -/
def selectedRows {α : Type*} [LinearOrderedField α] (spec : List (α × α))
    (BandgapMin BandgapMax Bandgap BandgapTop : α) : List (α × α) :=
  spec.filter fun r =>
    decide (aLambdaLowOf BandgapMin BandgapMax Bandgap BandgapTop ≤ r.1 ∧
            r.1 ≤ nmeV α / Bandgap)

/-- Samples `aWavelength` after the sub-range restriction (line 610). -/
def aWavelengthOf {α : Type*} [LinearOrderedField α] (spec : List (α × α))
    (BandgapMin BandgapMax Bandgap BandgapTop : α) : List α :=
  (selectedRows spec BandgapMin BandgapMax Bandgap BandgapTop).map Prod.fst

/-- Energies `aEnergy = self.nmeV / aWavelength` (line 611). -/
def aEnergyOf {α : Type*} [LinearOrderedField α] (spec : List (α × α))
    (BandgapMin BandgapMax Bandgap BandgapTop : α) : List α :=
  (aWavelengthOf spec BandgapMin BandgapMax Bandgap BandgapTop).map fun w => nmeV α / w

/-- Photon flux `aFlux = aIrradiance * aWavelength * 1e-9 / self.hc` with
`aIrradiance = self.SolarConcentration * np.take(...)` (lines 613-614). -/
def aFluxOf {α : Type*} [LinearOrderedField α] (spec : List (α × α))
    (SolarConcentration BandgapMin BandgapMax Bandgap BandgapTop : α) : List α :=
  (selectedRows spec BandgapMin BandgapMax Bandgap BandgapTop).map fun r =>
    SolarConcentration * r.2 * r.1 * (1 / 10 ^ 9) / hc α

/-- Short-circuit current `aJSC = self.q * sp.trapz(aFlux, x=aWavelength)` (line 615). -/
def aJSCOf {α : Type*} [LinearOrderedField α] (spec : List (α × α))
    (SolarConcentration BandgapMin BandgapMax Bandgap BandgapTop : α) : α :=
  q α * trapz (aFluxOf spec SolarConcentration BandgapMin BandgapMax Bandgap BandgapTop)
    (aWavelengthOf spec BandgapMin BandgapMax Bandgap BandgapTop)

/-- Method `PlanckDistribution` (lines 584-592): for each energy sample `aE` (eV),
`tE = aE * q` (J) and the returned value is
`-q * (2 pi / (h^3 c^2) * tE^2 / (exp(tE / kTJ) - 1))`. -/
def PlanckDistribution {α : Type*} [LinearOrderedField α]
    (expf : α → α) (kTJ : α) (Energy : List α) : List α :=
  Energy.map fun aE =>
    -q α * (2 * pi α / (h α ^ 3 * c α ^ 2) * (aE * q α) ^ 2 / (expf (aE * q α / kTJ) - 1))

/-- Dark saturation current `aJ0 = self.q * sp.trapz(aPlanck, x=aEnergy)` (lines 616-617), with
`self.kTJ = self.kTeV * self.q` (line 247). -/
def aJ0Of {α : Type*} [LinearOrderedField α] (expf : α → α) (kTeV : α) (spec : List (α × α))
    (BandgapMin BandgapMax Bandgap BandgapTop : α) : α :=
  q α * trapz
    (PlanckDistribution expf (kTeV * q α) (aEnergyOf spec BandgapMin BandgapMax Bandgap BandgapTop))
    (aEnergyOf spec BandgapMin BandgapMax Bandgap BandgapTop)

/-- The diode current of line 626: `aJ = -aJSC + (aJ0 * (exp(aV / kTeV) - 1))`. -/
def diodeJ {α : Type*} [LinearOrderedField α] (expf : α → α) (kTeV aJSC aJ0 aV : α) : α :=
  -aJSC + aJ0 * (expf (aV / kTeV) - 1)

/-- The voltage sweep `aVoltage = np.arange(0.0, aVOC + aVstep, aVstep)`
(line 620) in exact arithmetic: with `aVstep = aVOC / 500` the length is
`ceil((aVOC + aVstep) / aVstep) = ceil(501) = 501` (for either sign of
`aVstep ≠ 0`), and the samples are `k * aVstep` for `k < 501`. -/
def aVoltageOf {α : Type*} [LinearOrderedField α] (aVstep : α) : List α :=
  (List.range 501).map fun k : ℕ => (k : α) * aVstep

/-- One iteration of the max-power loop (lines 625-634); the state is
`(aPm, aVm, aJm, aFF)`, with `aFF = none` while the loop has not yet
assigned `aFF` (it is a Python local that first exists after the guarded
assignment). -/
def pmStep {α : Type*} [LinearOrderedField α] (expf : α → α) (kTeV aJSC aJ0 aVOC : α)
    (st : α × α × α × Option α) (aV : α) : α × α × α × Option α :=
  let aJ := diodeJ expf kTeV aJSC aJ0 aV
  if aJ < 0 ∧ st.1 < |aJ * aV| then
    (|aJ * aV|, aV, aJ, some (|aJ * aV| / (aJSC * aVOC)))
  else st

/-- The record returned on success (line 636). -/
structure SQResult (α : Type*) where
  aEff : α
  aVOC : α
  aJSC : α
  aFF : α
  aVm : α
  aJm : α
  aVoltage : List α
  aCurrent : List α

/-- Method `calculateEfficiency(Bandgap, BandgapTop)` (lines 596-649); see the
section comment for the correspondence between `none` branches and the
exceptions caught by the `except` clause. -/
def calculateEfficiency {α : Type*} [LinearOrderedField α] (expf logf : α → α)
    (spec : List (α × α)) (SolarPowerV SolarConcentration kTeV BandgapMin BandgapMax : α)
    (Bandgap BandgapTop : α) : Option (SQResult α) :=
  if Bandgap < BandgapMin ∨ BandgapMax < Bandgap then none
  else
    let aJSC := aJSCOf spec SolarConcentration BandgapMin BandgapMax Bandgap BandgapTop
    let aJ0 := aJ0Of expf kTeV spec BandgapMin BandgapMax Bandgap BandgapTop
    if aJ0 = 0 then none
    else if aJSC / aJ0 + 1 ≤ 0 then none
    else
      let aVOC := kTeV * logf (aJSC / aJ0 + 1)
      let aVstep := aVOC / 500
      if aVstep = 0 then none
      else
        let aVoltage := aVoltageOf aVstep
        let aCurrent := aVoltage.map (diodeJ expf kTeV aJSC aJ0)
        let st := aVoltage.foldl (pmStep expf kTeV aJSC aJ0 aVOC) (0, 0, 0, none)
        match st.2.2.2 with
        | none => none
        | some aFF =>
          match List.zipWith (fun aJ aV => aJ * aV) aCurrent aVoltage with
          | [] => none
          | p :: ps =>
            some { aEff := -100 * (ps.foldl min p) / (SolarPowerV * SolarConcentration)
                   aVOC := aVOC
                   aJSC := aJSC
                   aFF := aFF
                   aVm := st.2.1
                   aJm := st.2.2.1
                   aVoltage := aVoltage
                   aCurrent := aCurrent }

/-! ## Sign and monotonicity facts about the trapezoid rule -/

lemma trapzP_nonneg_of_incr {α : Type*} [LinearOrderedField α] :
    ∀ {l : List (α × α)}, (l.map Prod.fst).Chain' (· ≤ ·) → (∀ r ∈ l, 0 ≤ r.2) →
      0 ≤ trapzP l
  | [], _, _ => le_refl 0
  | [_], _, _ => le_refl 0
  | (x1, y1) :: (x2, y2) :: t, hx, hy => by
    simp only [List.map_cons, List.chain'_cons] at hx
    have hterm : 0 ≤ (x2 - x1) * (y1 + y2) / 2 := by
      have h1 : 0 ≤ x2 - x1 := sub_nonneg.mpr hx.1
      have h2 : 0 ≤ y1 + y2 :=
        add_nonneg (hy _ (List.mem_cons_self _ _))
          (hy _ (List.mem_cons_of_mem _ (List.mem_cons_self _ _)))
      positivity
    have hrest : 0 ≤ trapzP ((x2, y2) :: t) :=
      trapzP_nonneg_of_incr (by simpa using hx.2)
        (fun r hr => hy r (List.mem_cons_of_mem _ hr))
    rw [trapzP]
    exact add_nonneg hterm hrest

lemma trapzP_nonneg_of_decr {α : Type*} [LinearOrderedField α] :
    ∀ {l : List (α × α)}, (l.map Prod.fst).Chain' (· ≥ ·) → (∀ r ∈ l, r.2 ≤ 0) →
      0 ≤ trapzP l
  | [], _, _ => le_refl 0
  | [_], _, _ => le_refl 0
  | (x1, y1) :: (x2, y2) :: t, hx, hy => by
    simp only [List.map_cons, List.chain'_cons] at hx
    have hterm : 0 ≤ (x2 - x1) * (y1 + y2) / 2 := by
      have h1 : x2 - x1 ≤ 0 := sub_nonpos.mpr hx.1
      have h2 : y1 + y2 ≤ 0 :=
        add_nonpos (hy _ (List.mem_cons_self _ _))
          (hy _ (List.mem_cons_of_mem _ (List.mem_cons_self _ _)))
      have hm : 0 ≤ (x2 - x1) * (y1 + y2) := by
        have := mul_nonneg (neg_nonneg.mpr h1) (neg_nonneg.mpr h2)
        rwa [neg_mul_neg] at this
      linarith
    have hrest : 0 ≤ trapzP ((x2, y2) :: t) :=
      trapzP_nonneg_of_decr (by simpa using hx.2)
        (fun r hr => hy r (List.mem_cons_of_mem _ hr))
    rw [trapzP]
    exact add_nonneg hterm hrest

lemma trapzP_pos_of_decr {α : Type*} [LinearOrderedField α] {l : List (α × α)}
    (hx : (l.map Prod.fst).Chain' (· > ·)) (hy : ∀ r ∈ l, r.2 < 0)
    (hlen : 2 ≤ l.length) : 0 < trapzP l := by
  match l, hlen with
  | (x1, y1) :: (x2, y2) :: t, _ =>
    simp only [List.map_cons, List.chain'_cons] at hx
    have hterm : 0 < (x2 - x1) * (y1 + y2) / 2 := by
      have h1 : x2 - x1 < 0 := sub_neg.mpr hx.1
      have h2 : y1 + y2 < 0 :=
        add_neg (hy _ (List.mem_cons_self _ _))
          (hy _ (List.mem_cons_of_mem _ (List.mem_cons_self _ _)))
      have := mul_pos_of_neg_of_neg h1 h2
      positivity
    have hx2le : List.Chain' (· ≥ ·) (x2 :: List.map Prod.fst t) :=
      List.Chain'.imp (fun a b hab => le_of_lt hab) hx.2
    have hrest : 0 ≤ trapzP ((x2, y2) :: t) :=
      trapzP_nonneg_of_decr (by simpa using hx2le)
        (fun r hr => le_of_lt (hy r (List.mem_cons_of_mem _ hr)))
    rw [trapzP]
    exact add_pos_of_pos_of_nonneg hterm hrest

lemma le_trapzP_append {α : Type*} [LinearOrderedField α] :
    ∀ {p s : List (α × α)}, (((p ++ s).map Prod.fst).Chain' (· ≤ ·)) →
      (∀ r ∈ p ++ s, 0 ≤ r.2) → trapzP p ≤ trapzP (p ++ s)
  | [], s, hx, hy => by
    simpa [trapzP] using trapzP_nonneg_of_incr hx hy
  | [a], s, hx, hy => by
    obtain ⟨xa, ya⟩ := a
    have h0 : trapzP [((xa : α), ya)] = 0 := rfl
    rw [h0]
    exact trapzP_nonneg_of_incr hx hy
  | a :: b :: t, s, hx, hy => by
    have hx' : (((b :: t) ++ s).map Prod.fst).Chain' (· ≤ ·) := by
      simp only [List.cons_append, List.map_cons, List.chain'_cons] at hx ⊢
      exact hx.2
    have hy' : ∀ r ∈ (b :: t) ++ s, 0 ≤ r.2 := fun r hr => by
      refine hy r ?_
      simp only [List.cons_append, List.mem_cons] at hr ⊢
      tauto
    have hrec := le_trapzP_append hx' hy'
    obtain ⟨xa, ya⟩ := a
    obtain ⟨xb, yb⟩ := b
    simp only [List.cons_append] at *
    rw [trapzP, trapzP]
    exact add_le_add_left hrec _

/-! ## C7: empty wavelength selection yields a solve error, not a crash -/

/-- C7: whenever the selected wavelength sub-range is empty, the solve
returns the error tuple (modelled `none`) rather than crashing: the `except`
clause of lines 638-645 catches the downstream exception.  (With no selected
samples, both trapezoid integrals are zero, so `aJ0 = 0` and the
`aJSC / aJ0` / `log` / `arange` pipeline fails inside the `try` block.) -/
theorem C7_empty_selection_is_solve_error {α : Type*} [LinearOrderedField α]
    (expf logf : α → α) (spec : List (α × α))
    (SolarPowerV SolarConcentration kTeV BandgapMin BandgapMax Bandgap BandgapTop : α)
    (hsel : selectedRows spec BandgapMin BandgapMax Bandgap BandgapTop = []) :
    calculateEfficiency expf logf spec SolarPowerV SolarConcentration kTeV
      BandgapMin BandgapMax Bandgap BandgapTop = none := by
  unfold calculateEfficiency
  by_cases hb : Bandgap < BandgapMin ∨ BandgapMax < Bandgap
  · rw [if_pos hb]
  · rw [if_neg hb]
    have hJ0 : aJ0Of expf kTeV spec BandgapMin BandgapMax Bandgap BandgapTop = 0 := by
      unfold aJ0Of PlanckDistribution aEnergyOf aWavelengthOf trapz
      rw [hsel]
      simp [trapzP]
    simp [hJ0]

/-! ### Transporting the wavelength filter to the integer skeleton -/

lemma filter_band_cast {α : Type*} [LinearOrderedField α] (lz : List (ℤ × ℤ)) (lo hi : ℤ) :
    ((castPairs α lz).filter fun r => decide ((lo : α) ≤ r.1 ∧ r.1 ≤ (hi : α)))
      = castPairs α (lz.filter fun r => decide (lo ≤ r.1 ∧ r.1 ≤ hi)) := by
  unfold castPairs
  rw [List.filter_map]
  congr 1
  apply List.filter_congr
  intro p _
  simp only [Function.comp_apply]
  rw [decide_eq_decide]
  constructor
  · rintro ⟨h1, h2⟩
    exact ⟨by exact_mod_cast h1, by exact_mod_cast h2⟩
  · rintro ⟨h1, h2⟩
    exact ⟨by exact_mod_cast h1, by exact_mod_cast h2⟩

/-- When both cutoffs reduce to integer values, the selected rows of a cast
integer spectrum are the cast of an integer-level filter. -/
lemma selectedRows_cast {α : Type*} [LinearOrderedField α] (lz : List (ℤ × ℤ))
    (BandgapMin BandgapMax Bandgap BandgapTop : α) (lo hi : ℤ)
    (hlo : aLambdaLowOf BandgapMin BandgapMax Bandgap BandgapTop = (lo : α))
    (hhi : nmeV α / Bandgap = (hi : α)) :
    selectedRows (castPairs α lz) BandgapMin BandgapMax Bandgap BandgapTop
      = castPairs α (lz.filter fun r => decide (lo ≤ r.1 ∧ r.1 ≤ hi)) := by
  unfold selectedRows
  simp only [hlo, hhi]
  exact filter_band_cast lz lo hi

def c7specZ : List (ℤ × ℤ) :=
  [(200, 2), (201, 2), (202, 2), (203, 2), (204, 2), (205, 2), (206, 2), (207, 2), (208, 2),
    (209, 2), (210, 2), (211, 2), (212, 2), (213, 2), (214, 2), (215, 2), (216, 2), (217, 2),
    (218, 2), (219, 2), (220, 2), (221, 2), (222, 2), (223, 2), (224, 2), (225, 2), (226, 2),
    (227, 2), (228, 2), (229, 2), (230, 2), (231, 2), (232, 2), (233, 2), (234, 2), (235, 2),
    (236, 2), (237, 2), (238, 2), (239, 2), (240, 2), (241, 2), (242, 2), (243, 2), (244, 2),
    (245, 2), (246, 2), (247, 2), (248, 2), (249, 2), (250, 2), (251, 2), (252, 2), (253, 2),
    (254, 2), (255, 2), (256, 2), (257, 2), (258, 2), (259, 2), (260, 2), (261, 2), (262, 2),
    (263, 2), (264, 2), (265, 2), (266, 2), (267, 2), (268, 2), (269, 2), (270, 2), (271, 2),
    (272, 2), (273, 2), (274, 2), (275, 2), (276, 2), (277, 2), (278, 2), (279, 2), (280, 2),
    (281, 2), (282, 2), (283, 2), (284, 2), (285, 2), (286, 2), (287, 2), (288, 2), (289, 2),
    (290, 2), (291, 2), (292, 2), (293, 2), (294, 2), (295, 2), (296, 2), (297, 2), (298, 2),
    (5000, 2)]

/-- The C7 spectrum over ℚ. -/
def c7spec : List (ℚ × ℚ) := castPairs ℚ c7specZ

lemma c7spec_sel_empty :
    selectedRows c7spec (nmeV ℚ / 4990) (nmeV ℚ / 210) (nmeV ℚ / 400) (nmeV ℚ / 300) = [] := by
  rw [c7spec, selectedRows_cast c7specZ _ _ _ _ 300 400 ?_ ?_]
  · rw [show (c7specZ.filter fun r => decide ((300:ℤ) ≤ r.1 ∧ r.1 ≤ (400:ℤ))) = [] by decide]
    rfl
  · rw [aLambdaLowOf, if_pos]
    · norm_num [nmeV]
    · refine ⟨?_, ?_, ?_⟩ <;> norm_num [nmeV]
  · norm_num [nmeV]

/-- Witness for C7: a valid 100-row spectrum (wavelengths 200..298 nm and
5000 nm) with the sub-range `[300, 400]` nm selected by
`Bandgap = nmeV/400`, `BandgapTop = nmeV/300`: the selection is empty (the
bandgap is inside the domain `[nmeV/4990, nmeV/210]`) and the solve returns
the error tuple. -/
theorem C7_witness :
    (specDataOK c7spec ∧ loadSpectrumOK c7spec ∧
      selectedRows c7spec (nmeV ℚ / 4990) (nmeV ℚ / 210) (nmeV ℚ / 400) (nmeV ℚ / 300) = []) ∧
    calculateEfficiency (fun x => x + 1) (fun x => x - 1) c7spec 9600 1 1
      (nmeV ℚ / 4990) (nmeV ℚ / 210) (nmeV ℚ / 400) (nmeV ℚ / 300) = none := by
  have hok : specDataOK c7spec :=
    specDataOK_cast c7specZ (by decide) (by decide) (by decide) (by decide)
  have hpow : SolarPower c7spec = 9600 := by
    rw [c7spec, SolarPower_eq_trapzP, trapzP_castPairs]
    rw [show trapzP2 c7specZ = 19200 by decide]
    norm_num
  refine ⟨⟨hok, ⟨hok, ?_⟩, c7spec_sel_empty⟩, ?_⟩
  · rw [hpow]; norm_num
  · exact C7_empty_selection_is_solve_error _ _ _ _ _ _ _ _ _ _ c7spec_sel_empty

/-! ## C10: positivity of the dark saturation current -/

/-- Thermal voltage `self.kTeV = 0.02585202874091 * self.Temperature / 300.0` (line 246). -/
def kTeVOf (α : Type*) [LinearOrderedField α] (Temperature : α) : α :=
  2585202874091 / 10 ^ 14 * Temperature / 300

lemma q_pos {α : Type*} [LinearOrderedField α] : 0 < q α := by norm_num [q]

lemma pi_pos {α : Type*} [LinearOrderedField α] : 0 < pi α := by norm_num [pi]

lemma h_pos {α : Type*} [LinearOrderedField α] : 0 < h α := by norm_num [h]

lemma c_pos {α : Type*} [LinearOrderedField α] : 0 < c α := by norm_num [c]

lemma hc_pos {α : Type*} [LinearOrderedField α] : 0 < hc α := by norm_num [hc]

lemma nmeV_pos {α : Type*} [LinearOrderedField α] : 0 < nmeV α := by norm_num [nmeV]

lemma zip_self_map {α β : Type*} (f : α → β) :
    ∀ l : List α, l.zip (l.map f) = l.map fun a => (a, f a)
  | [] => rfl
  | a :: t => by
    simp only [List.map_cons, List.zip_cons_cons]
    rw [zip_self_map f t]

/-- The selected rows are a sublist of the spectrum, so their wavelengths
stay strictly increasing. -/
lemma selectedRows_chain {α : Type*} [LinearOrderedField α] {spec : List (α × α)}
    (hchain : (spec.map Prod.fst).Chain' (· < ·))
    (BandgapMin BandgapMax Bandgap BandgapTop : α) :
    ((selectedRows spec BandgapMin BandgapMax Bandgap BandgapTop).map Prod.fst).Chain'
      (· < ·) := by
  have hsub : List.Sublist (selectedRows spec BandgapMin BandgapMax Bandgap BandgapTop) spec :=
    List.filter_sublist spec
  exact List.Chain'.sublist hchain (hsub.map Prod.fst)

lemma mem_selectedRows {α : Type*} [LinearOrderedField α] {spec : List (α × α)}
    {BandgapMin BandgapMax Bandgap BandgapTop : α} {r : α × α}
    (hr : r ∈ selectedRows spec BandgapMin BandgapMax Bandgap BandgapTop) : r ∈ spec :=
  List.mem_of_mem_filter hr

/-- Strictly increasing positive wavelengths give strictly decreasing
energies `nmeV / w`. -/
lemma chain_energies_of_chain_lt {α : Type*} [LinearOrderedField α] :
    ∀ {l : List α}, l.Chain' (· < ·) → (∀ x ∈ l, 0 < x) →
      (l.map fun w => nmeV α / w).Chain' (· > ·)
  | [], _, _ => List.chain'_nil
  | [_], _, _ => by simp
  | a :: b :: t, hch, hpos => by
    simp only [List.chain'_cons] at hch
    have ha : 0 < a := hpos a (List.mem_cons_self _ _)
    have hb : 0 < b := hpos b (List.mem_cons_of_mem _ (List.mem_cons_self _ _))
    have hrec := chain_energies_of_chain_lt hch.2
      (fun x hx => hpos x (List.mem_cons_of_mem _ hx))
    simp only [List.map_cons, List.chain'_cons] at hrec ⊢
    refine ⟨?_, hrec⟩
    exact div_lt_div_of_pos_left nmeV_pos ha hch.1

/-- Each Planck sample at a positive energy is strictly negative, provided
`expf` is strictly monotone with `expf 0 = 1` and `kTJ > 0`
(`PlanckDistribution`, lines 584-592: the returned value is `-q * tP` with
`tP > 0`). -/
lemma planck_sample_neg {α : Type*} [LinearOrderedField α] {expf : α → α} {kTJ E : α}
    (hmono : StrictMono expf) (he0 : expf 0 = 1) (hkT : 0 < kTJ) (hE : 0 < E) :
    -q α * (2 * pi α / (h α ^ 3 * c α ^ 2) * (E * q α) ^ 2 / (expf (E * q α / kTJ) - 1))
      < 0 := by
  have harg : 0 < E * q α / kTJ := by
    have := mul_pos hE (q_pos (α := α))
    positivity
  have hden : 0 < expf (E * q α / kTJ) - 1 := by
    have := hmono harg
    rw [he0] at this
    linarith
  have hnum : 0 < 2 * pi α / (h α ^ 3 * c α ^ 2) * (E * q α) ^ 2 := by
    have h1 : 0 < 2 * pi α := by have := pi_pos (α := α); linarith
    have h2 : 0 < h α ^ 3 * c α ^ 2 := by
      have := h_pos (α := α); have := c_pos (α := α); positivity
    have h3 : 0 < (E * q α) ^ 2 := by
      have := mul_pos hE (q_pos (α := α)); positivity
    positivity
  have : 0 < 2 * pi α / (h α ^ 3 * c α ^ 2) * (E * q α) ^ 2 / (expf (E * q α / kTJ) - 1) :=
    div_pos hnum hden
  have hq := q_pos (α := α)
  nlinarith

/-- The dark saturation current `aJ0` is strictly positive whenever at least
two wavelength samples are selected: the energy grid is strictly decreasing,
the Planck samples are all negative, and the two sign reversals cancel in
the trapezoid sum. -/
lemma aJ0Of_pos {α : Type*} [LinearOrderedField α] {expf : α → α} {kTeV : α}
    {spec : List (α × α)} (BandgapMin BandgapMax Bandgap BandgapTop : α)
    (hmono : StrictMono expf) (he0 : expf 0 = 1) (hkT : 0 < kTeV)
    (hpos : ∀ r ∈ spec, 0 < r.1)
    (hchain : (spec.map Prod.fst).Chain' (· < ·))
    (hlen : 2 ≤ (selectedRows spec BandgapMin BandgapMax Bandgap BandgapTop).length) :
    0 < aJ0Of expf kTeV spec BandgapMin BandgapMax Bandgap BandgapTop := by
  unfold aJ0Of trapz PlanckDistribution
  rw [zip_self_map]
  apply mul_pos q_pos
  apply trapzP_pos_of_decr
  · rw [List.map_map]
    have : (Prod.fst ∘ fun aE =>
        (aE, -q α * (2 * pi α / (h α ^ 3 * c α ^ 2) * (aE * q α) ^ 2 /
          (expf (aE * q α / (kTeV * q α)) - 1))))
        = fun aE : α => aE := rfl
    rw [this]
    simp only [List.map_id']
    unfold aEnergyOf aWavelengthOf
    apply chain_energies_of_chain_lt
    · exact selectedRows_chain hchain _ _ _ _
    · intro x hx
      obtain ⟨r, hr, rfl⟩ := List.mem_map.mp hx
      exact hpos r (mem_selectedRows hr)
  · intro r hr
    obtain ⟨E, hE, rfl⟩ := List.mem_map.mp hr
    have hEpos : 0 < E := by
      unfold aEnergyOf aWavelengthOf at hE
      obtain ⟨w, hw, rfl⟩ := List.mem_map.mp hE
      obtain ⟨rw, hrw, rfl⟩ := List.mem_map.mp hw
      exact div_pos nmeV_pos (hpos rw (mem_selectedRows hrw))
    exact planck_sample_neg hmono he0 (mul_pos hkT q_pos) hEpos
  · unfold aEnergyOf aWavelengthOf
    simpa using hlen

/-- The short-circuit current `aJSC` is non-negative for a spectrum with
non-negative wavelengths and irradiance. -/
lemma aJSCOf_nonneg {α : Type*} [LinearOrderedField α] {spec : List (α × α)}
    {SolarConcentration : α} (BandgapMin BandgapMax Bandgap BandgapTop : α)
    (hSC : 0 ≤ SolarConcentration)
    (hpos : ∀ r ∈ spec, 0 ≤ r.1) (hI : ∀ r ∈ spec, 0 ≤ r.2)
    (hchain : (spec.map Prod.fst).Chain' (· < ·)) :
    0 ≤ aJSCOf spec SolarConcentration BandgapMin BandgapMax Bandgap BandgapTop := by
  unfold aJSCOf trapz aFluxOf aWavelengthOf
  rw [List.zip_map']
  apply mul_nonneg q_pos.le
  apply trapzP_nonneg_of_incr
  · rw [List.map_map]
    have : (Prod.fst ∘ fun r : α × α =>
        (r.1, SolarConcentration * r.2 * r.1 * (1 / 10 ^ 9) / hc α)) = Prod.fst := rfl
    rw [this]
    exact List.Chain'.imp (fun a b hab => le_of_lt hab) (selectedRows_chain hchain _ _ _ _)
  · intro r hr
    obtain ⟨s, hs, rfl⟩ := List.mem_map.mp hr
    have h1 := hpos s (mem_selectedRows hs)
    have h2 := hI s (mem_selectedRows hs)
    have := hc_pos (α := α)
    positivity

/-- C10: for every solve whose wavelength selection contains at least two
samples and whose temperature is in `[100, 700]` K: the derived energy grid
is strictly decreasing, `PlanckDistribution` returns strictly negative
values, the dark saturation current `aJ0 = q * trapz(aPlanck, aEnergy)` is
strictly positive (the two sign reversals cancel), and hence the logarithm
argument `aJSC / aJ0 + 1` is at least 1. -/
theorem C10_dark_current_positive {α : Type*} [LinearOrderedField α]
    (expf : α → α) (spec : List (α × α))
    (SolarConcentration Temperature BandgapMin BandgapMax Bandgap BandgapTop : α)
    (hmono : StrictMono expf) (he0 : expf 0 = 1)
    (hT : 100 ≤ Temperature ∧ Temperature ≤ 700)
    (hpos : ∀ r ∈ spec, 0 < r.1) (hI : ∀ r ∈ spec, 0 ≤ r.2)
    (hchain : (spec.map Prod.fst).Chain' (· < ·)) (hSC : 0 ≤ SolarConcentration)
    (hlen : 2 ≤ (selectedRows spec BandgapMin BandgapMax Bandgap BandgapTop).length) :
    (aEnergyOf spec BandgapMin BandgapMax Bandgap BandgapTop).Chain' (· > ·) ∧
    (∀ y ∈ PlanckDistribution expf (kTeVOf α Temperature * q α)
        (aEnergyOf spec BandgapMin BandgapMax Bandgap BandgapTop), y < 0) ∧
    0 < aJ0Of expf (kTeVOf α Temperature) spec BandgapMin BandgapMax Bandgap BandgapTop ∧
    1 ≤ aJSCOf spec SolarConcentration BandgapMin BandgapMax Bandgap BandgapTop /
          aJ0Of expf (kTeVOf α Temperature) spec BandgapMin BandgapMax Bandgap BandgapTop
        + 1 := by
  have hkT : 0 < kTeVOf α Temperature := by
    unfold kTeVOf
    nlinarith [hT.1]
  have hJ0 := @aJ0Of_pos α _ expf (kTeVOf α Temperature) spec
    BandgapMin BandgapMax Bandgap BandgapTop hmono he0 hkT hpos hchain hlen
  refine ⟨?_, ?_, hJ0, ?_⟩
  · unfold aEnergyOf aWavelengthOf
    apply chain_energies_of_chain_lt
    · exact selectedRows_chain hchain _ _ _ _
    · intro x hx
      obtain ⟨r, hr, rfl⟩ := List.mem_map.mp hx
      exact hpos r (mem_selectedRows hr)
  · intro y hy
    unfold PlanckDistribution at hy
    obtain ⟨E, hE, rfl⟩ := List.mem_map.mp hy
    have hEpos : 0 < E := by
      unfold aEnergyOf aWavelengthOf at hE
      obtain ⟨w, hw, rfl⟩ := List.mem_map.mp hE
      obtain ⟨rw, hrw, rfl⟩ := List.mem_map.mp hw
      exact div_pos nmeV_pos (hpos rw (mem_selectedRows hrw))
    exact planck_sample_neg hmono he0 (mul_pos hkT q_pos) hEpos
  · have hJSC := @aJSCOf_nonneg α _ spec SolarConcentration
      BandgapMin BandgapMax Bandgap BandgapTop hSC
      (fun r hr => le_of_lt (hpos r hr)) hI hchain
    have : 0 ≤ aJSCOf spec SolarConcentration BandgapMin BandgapMax Bandgap BandgapTop /
        aJ0Of expf (kTeVOf α Temperature) spec BandgapMin BandgapMax Bandgap BandgapTop :=
      div_nonneg hJSC (le_of_lt hJ0)
    linarith

/-- A tiny two-row spectrum for witnesses. -/
def c10spec : List (ℚ × ℚ) := [(1000, 1), (2000, 1)]

lemma strictMono_add_one : StrictMono (fun x : ℚ => x + 1) := fun a b hab => by simpa using hab

lemma c10sel : selectedRows c10spec (1 / 10) 10 (3 / 5) 0 = c10spec := by
  unfold selectedRows aLambdaLowOf CutSpectrum c10spec
  norm_num [nmeV, List.filter]

/-- Witness for C10: the theorem applied to a concrete two-row spectrum with
`expf x = x + 1`. -/
theorem C10_witness :
    (2 ≤ (selectedRows c10spec (1 / 10) 10 (3 / 5) 0).length) ∧
    0 < aJ0Of (fun x => x + 1) (kTeVOf ℚ 300) c10spec (1 / 10) 10 (3 / 5) 0 ∧
    1 ≤ aJSCOf c10spec 1 (1 / 10) 10 (3 / 5) 0 /
          aJ0Of (fun x => x + 1) (kTeVOf ℚ 300) c10spec (1 / 10) 10 (3 / 5) 0 + 1 := by
  have hlen : 2 ≤ (selectedRows c10spec (1 / 10) 10 (3 / 5) 0).length := by
    rw [c10sel]
    norm_num [c10spec]
  have hmain := C10_dark_current_positive (fun x => x + 1) c10spec 1 300 (1 / 10) 10 (3 / 5) 0
    strictMono_add_one (by norm_num) (by norm_num)
    (by norm_num [c10spec, List.forall_mem_cons])
    (by norm_num [c10spec, List.forall_mem_cons])
    (by norm_num [c10spec, List.chain'_cons])
    (by norm_num) hlen
  exact ⟨hlen, hmain.2.2.1, hmain.2.2.2⟩

/-! ## C5: Jsc is monotone non-increasing in the bandgap -/

/-- For a strictly sorted list, raising the wavelength cutoff only appends
rows: the lower-cutoff filter is a prefix of the higher-cutoff filter. -/
lemma filter_cutoff_append {α : Type*} [LinearOrderedField α] :
    ∀ (l : List (α × α)), (l.map Prod.fst).Pairwise (· < ·) → ∀ {cl ch : α}, cl ≤ ch →
      ∃ s, l.filter (fun r => decide (r.1 ≤ ch)) = l.filter (fun r => decide (r.1 ≤ cl)) ++ s
  | [], _, _, _, _ => ⟨[], rfl⟩
  | a :: t, hp, cl, ch, hcc => by
    rw [List.map_cons, List.pairwise_cons] at hp
    have hpt : ∀ b ∈ t, a.1 < b.1 := by
      intro b hb
      exact hp.1 b.1 (List.mem_map.mpr ⟨b, hb, rfl⟩)
    by_cases hal : a.1 ≤ cl
    · have hah : a.1 ≤ ch := le_trans hal hcc
      obtain ⟨s, hs⟩ := filter_cutoff_append t hp.2 hcc
      refine ⟨s, ?_⟩
      rw [List.filter_cons_of_pos (by simpa using hah),
        List.filter_cons_of_pos (by simpa using hal), hs, List.cons_append]
    · have hclt : t.filter (fun r => decide (r.1 ≤ cl)) = [] := by
        rw [List.filter_eq_nil_iff]
        intro r hr
        simp only [decide_eq_true_eq]
        push_neg at hal ⊢
        exact lt_trans hal (hpt r hr)
      by_cases hah : a.1 ≤ ch
      · refine ⟨a :: t.filter (fun r => decide (r.1 ≤ ch)), ?_⟩
        rw [List.filter_cons_of_pos (by simpa using hah),
          List.filter_cons_of_neg (by simpa using hal), hclt]
        rfl
      · have hcht : t.filter (fun r => decide (r.1 ≤ ch)) = [] := by
          rw [List.filter_eq_nil_iff]
          intro r hr
          simp only [decide_eq_true_eq]
          push_neg at hah ⊢
          exact lt_trans hah (hpt r hr)
        refine ⟨[], ?_⟩
        rw [List.filter_cons_of_neg (by simpa using hah),
          List.filter_cons_of_neg (by simpa using hal), hclt, hcht]
        rfl

/-- The current `aJSC` rewritten as a single trapezoid over `(wavelength, flux)` pairs. -/
lemma aJSCOf_eq_trapzP {α : Type*} [LinearOrderedField α] (spec : List (α × α))
    (SolarConcentration BandgapMin BandgapMax Bandgap BandgapTop : α) :
    aJSCOf spec SolarConcentration BandgapMin BandgapMax Bandgap BandgapTop
      = q α * trapzP ((selectedRows spec BandgapMin BandgapMax Bandgap BandgapTop).map
          fun r => (r.1, SolarConcentration * r.2 * r.1 * (1 / 10 ^ 9) / hc α)) := by
  unfold aJSCOf trapz aFluxOf aWavelengthOf
  rw [List.zip_map']

/-- With no top-bandgap filtering and a positive bandgap, the selection is a
pure upper-cutoff filter over the wavelengths. -/
lemma selectedRows_no_top {α : Type*} [LinearOrderedField α] (spec : List (α × α))
    (BandgapMin BandgapMax Bandgap : α) (hb : 0 < Bandgap)
    (hpos : ∀ r ∈ spec, 0 < r.1) :
    selectedRows spec BandgapMin BandgapMax Bandgap 0
      = spec.filter fun r => decide (r.1 ≤ nmeV α / Bandgap) := by
  unfold selectedRows aLambdaLowOf
  rw [if_neg (by
    unfold CutSpectrum
    push_neg
    intro hcut
    exact absurd hcut (not_lt.mpr (le_of_lt hb)))]
  apply List.filter_congr
  intro r hr
  rw [decide_eq_decide]
  constructor
  · exact fun hx => hx.2
  · exact fun hx => ⟨le_of_lt (hpos r hr), hx⟩

/-- C5: with `topBandgap = 0`, for bandgaps `BandgapMin ≤ b1 < b2 ≤ BandgapMax`
the short-circuit current at `b1` is at least that at `b2` (a lower bandgap
collects a superset of the tabulated spectrum, and every trapezoid term of
the flux integral is non-negative). -/
theorem C5_jsc_antitone_in_bandgap {α : Type*} [LinearOrderedField α]
    (spec : List (α × α)) (SolarConcentration BandgapMin BandgapMax b1 b2 : α)
    (hchain : (spec.map Prod.fst).Chain' (· < ·))
    (hpos : ∀ r ∈ spec, 0 < r.1) (hI : ∀ r ∈ spec, 0 ≤ r.2)
    (hSC : 0 ≤ SolarConcentration) (hBmin : 0 < BandgapMin)
    (hdom1 : BandgapMin ≤ b1) (h12 : b1 < b2) (hdom2 : b2 ≤ BandgapMax) :
    aJSCOf spec SolarConcentration BandgapMin BandgapMax b2 0
      ≤ aJSCOf spec SolarConcentration BandgapMin BandgapMax b1 0 := by
  have hb1 : 0 < b1 := lt_of_lt_of_le hBmin hdom1
  have hb2 : 0 < b2 := lt_trans hb1 h12
  have hcut : nmeV α / b2 ≤ nmeV α / b1 :=
    le_of_lt (div_lt_div_of_pos_left nmeV_pos hb1 h12)
  rw [aJSCOf_eq_trapzP, aJSCOf_eq_trapzP, selectedRows_no_top spec _ _ b1 hb1 hpos,
    selectedRows_no_top spec _ _ b2 hb2 hpos]
  have hpw : (spec.map Prod.fst).Pairwise (· < ·) := List.chain'_iff_pairwise.mp hchain
  obtain ⟨s, hs⟩ := filter_cutoff_append spec hpw hcut
  rw [hs, List.map_append]
  set f : α × α → α × α :=
    fun r => (r.1, SolarConcentration * r.2 * r.1 * (1 / 10 ^ 9) / hc α) with hf
  apply mul_le_mul_of_nonneg_left ?_ q_pos.le
  apply le_trapzP_append
  · rw [← List.map_append, ← hs]
    have hxf : ((spec.filter fun r => decide (r.1 ≤ nmeV α / b1)).map f).map Prod.fst
        = (spec.filter fun r => decide (r.1 ≤ nmeV α / b1)).map Prod.fst := by
      rw [List.map_map]
      rfl
    rw [hxf]
    have hsub : List.Sublist (spec.filter fun r => decide (r.1 ≤ nmeV α / b1)) spec :=
      List.filter_sublist spec
    exact List.Chain'.imp (fun a b hab => le_of_lt hab)
      (List.Chain'.sublist hchain (hsub.map Prod.fst))
  · rw [← List.map_append, ← hs]
    intro r hr
    obtain ⟨p, hpmem, rfl⟩ := List.mem_map.mp hr
    have hspec : p ∈ spec := List.mem_of_mem_filter hpmem
    have h1 := le_of_lt (hpos p hspec)
    have h2 := hI p hspec
    have := hc_pos (α := α)
    show 0 ≤ SolarConcentration * p.2 * p.1 * (1 / 10 ^ 9) / hc α
    positivity

/-- Witness for C5: the theorem applied at the two-row spectrum with
`b1 = 3/5 < b2 = 4/5`. -/
theorem C5_witness :
    ((1 : ℚ) / 10 ≤ 3 / 5 ∧ (3 : ℚ) / 5 < 4 / 5 ∧ (4 : ℚ) / 5 ≤ 10) ∧
    aJSCOf c10spec 1 (1 / 10) 10 (4 / 5) 0 ≤ aJSCOf c10spec 1 (1 / 10) 10 (3 / 5) 0 := by
  refine ⟨by norm_num, ?_⟩
  exact C5_jsc_antitone_in_bandgap c10spec 1 (1 / 10) 10 (3 / 5) (4 / 5)
    (by norm_num [c10spec, List.chain'_cons])
    (by norm_num [c10spec, List.forall_mem_cons])
    (by norm_num [c10spec, List.forall_mem_cons])
    (by norm_num) (by norm_num) (by norm_num) (by norm_num) (by norm_num)

/-! ## Success characterization of a solve -/

/-- Open-circuit voltage `aVOC = self.kTeV * math.log((aJSC / aJ0) + 1.0)` (line 618). -/
def aVOCOf {α : Type*} [LinearOrderedField α] (expf logf : α → α) (kTeV : α)
    (spec : List (α × α)) (SolarConcentration BandgapMin BandgapMax Bandgap BandgapTop : α) :
    α :=
  kTeV * logf (aJSCOf spec SolarConcentration BandgapMin BandgapMax Bandgap BandgapTop /
    aJ0Of expf kTeV spec BandgapMin BandgapMax Bandgap BandgapTop + 1)

/-- Model of `np.min` of a list (0 on the empty list, on which NumPy would raise). -/
def npMinD {α : Type*} [LinearOrderedField α] : List α → α
  | [] => 0
  | p :: ps => ps.foldl min p

lemma foldl_min_le_init {α : Type*} [LinearOrderedField α] {l : List α} {a : α} :
    l.foldl min a ≤ a := by
  induction l generalizing a with
  | nil => exact le_refl a
  | cons x t ih => exact le_trans ih (min_le_left a x)

lemma foldl_min_le_mem {α : Type*} [LinearOrderedField α] {l : List α} {a x : α}
    (hx : x ∈ l) : l.foldl min a ≤ x := by
  induction l generalizing a with
  | nil => cases hx
  | cons y t ih =>
    rcases List.mem_cons.mp hx with hx | hx
    · subst hx
      exact le_trans (foldl_min_le_init (l := t) (a := min a x)) (min_le_right a x)
    · exact ih hx

lemma npMinD_le_mem {α : Type*} [LinearOrderedField α] {l : List α} {x : α}
    (hx : x ∈ l) : npMinD l ≤ x := by
  cases l with
  | nil => cases hx
  | cons p ps =>
    rcases List.mem_cons.mp hx with hx | hx
    · subst hx
      exact foldl_min_le_init
    · exact foldl_min_le_mem hx

/-- The integral `aJ0` is non-negative for any selection size. -/
lemma aJ0Of_nonneg {α : Type*} [LinearOrderedField α] {expf : α → α} {kTeV : α}
    {spec : List (α × α)} (BandgapMin BandgapMax Bandgap BandgapTop : α)
    (hmono : StrictMono expf) (he0 : expf 0 = 1) (hkT : 0 < kTeV)
    (hpos : ∀ r ∈ spec, 0 < r.1)
    (hchain : (spec.map Prod.fst).Chain' (· < ·)) :
    0 ≤ aJ0Of expf kTeV spec BandgapMin BandgapMax Bandgap BandgapTop := by
  unfold aJ0Of trapz PlanckDistribution
  rw [zip_self_map]
  apply mul_nonneg q_pos.le
  apply trapzP_nonneg_of_decr
  · rw [List.map_map]
    have hfst : (Prod.fst ∘ fun aE =>
        (aE, -q α * (2 * pi α / (h α ^ 3 * c α ^ 2) * (aE * q α) ^ 2 /
          (expf (aE * q α / (kTeV * q α)) - 1))))
        = fun aE : α => aE := rfl
    rw [hfst]
    simp only [List.map_id']
    unfold aEnergyOf aWavelengthOf
    refine List.Chain'.imp (fun a b hab => le_of_lt hab) ?_
    apply chain_energies_of_chain_lt
    · exact selectedRows_chain hchain _ _ _ _
    · intro x hx
      obtain ⟨r, hr, rfl⟩ := List.mem_map.mp hx
      exact hpos r (mem_selectedRows hr)
  · intro r hr
    obtain ⟨E, hE, rfl⟩ := List.mem_map.mp hr
    have hEpos : 0 < E := by
      unfold aEnergyOf aWavelengthOf at hE
      obtain ⟨w, hw, rfl⟩ := List.mem_map.mp hE
      obtain ⟨rw, hrw, rfl⟩ := List.mem_map.mp hw
      exact div_pos nmeV_pos (hpos rw (mem_selectedRows hrw))
    exact le_of_lt (planck_sample_neg hmono he0 (mul_pos hkT q_pos) hEpos)

lemma pmFold_preserves_some {α : Type*} [LinearOrderedField α] (expf : α → α)
    (kTeV aJSC aJ0 aVOC : α) (l : List α) (st : α × α × α × Option α)
    (hst : st.2.2.2.isSome) :
    ((l.foldl (pmStep expf kTeV aJSC aJ0 aVOC) st)).2.2.2.isSome := by
  induction l generalizing st with
  | nil => exact hst
  | cons v t ih =>
    apply ih
    unfold pmStep
    dsimp only
    split
    · simp
    · exact hst

/-- First two grid samples: `aVoltageOf s = 0 * s :: 1 * s :: rest`. -/
lemma aVoltageOf_cons {α : Type*} [LinearOrderedField α] (s : α) :
    aVoltageOf s = ((0 : ℕ) : α) * s :: ((1 : ℕ) : α) * s ::
      ((List.range 499).map fun k : ℕ => ((k + 2 : ℕ) : α) * s) := by
  unfold aVoltageOf
  rw [show (501 : ℕ) = 499 + 1 + 1 from rfl, List.range_succ_eq_map, List.range_succ_eq_map]
  simp only [List.map_cons, List.map_map]
  rfl

/-- If the current at the first positive grid sample is negative, the
max-power loop assigns `aFF` (and it stays assigned). -/
lemma pmFold_isSome {α : Type*} [LinearOrderedField α] {expf : α → α}
    {kTeV aJSC aJ0 aVOC : α}
    (hstep : 0 < aVOC / 500)
    (hJ1 : diodeJ expf kTeV aJSC aJ0 (((1 : ℕ) : α) * (aVOC / 500)) < 0) :
    ((aVoltageOf (aVOC / 500)).foldl (pmStep expf kTeV aJSC aJ0 aVOC)
      (0, 0, 0, none)).2.2.2.isSome := by
  rw [aVoltageOf_cons]
  rw [List.foldl_cons, List.foldl_cons]
  apply pmFold_preserves_some
  have h0 : pmStep expf kTeV aJSC aJ0 aVOC (0, 0, 0, none) (((0 : ℕ) : α) * (aVOC / 500))
      = (0, 0, 0, none) := by
    unfold pmStep
    dsimp only
    rw [if_neg]
    rintro ⟨-, habs⟩
    simp at habs
  rw [h0]
  unfold pmStep
  dsimp only
  rw [if_pos]
  · simp
  · refine ⟨hJ1, ?_⟩
    rw [abs_mul]
    have hv : (0 : α) < ((1 : ℕ) : α) * (aVOC / 500) := by
      rw [Nat.cast_one, one_mul]
      exact hstep
    have hJne : diodeJ expf kTeV aJSC aJ0 (((1 : ℕ) : α) * (aVOC / 500)) ≠ 0 :=
      ne_of_lt hJ1
    have h1 : 0 < |diodeJ expf kTeV aJSC aJ0 (((1 : ℕ) : α) * (aVOC / 500))| :=
      abs_pos.mpr hJne
    have h2 : 0 < |((1 : ℕ) : α) * (aVOC / 500)| := abs_pos.mpr (ne_of_gt hv)
    exact mul_pos h1 h2

/-- The integral `aJ0` vanishes when at most one row is selected (a trapezoid needs two
samples). -/
lemma aJ0Of_zero_of_short {α : Type*} [LinearOrderedField α] (expf : α → α) (kTeV : α)
    (spec : List (α × α)) (BandgapMin BandgapMax Bandgap BandgapTop : α)
    (hlen : (selectedRows spec BandgapMin BandgapMax Bandgap BandgapTop).length ≤ 1) :
    aJ0Of expf kTeV spec BandgapMin BandgapMax Bandgap BandgapTop = 0 := by
  obtain ⟨l, hsel, hl⟩ :
      ∃ l, selectedRows spec BandgapMin BandgapMax Bandgap BandgapTop = l ∧ l.length ≤ 1 :=
    ⟨_, rfl, hlen⟩
  unfold aJ0Of trapz PlanckDistribution aEnergyOf aWavelengthOf
  rw [zip_self_map, hsel]
  match l, hl with
  | [], _ => simp [trapzP]
  | [r], _ => simp [trapzP]

/-- A solve with `aJ0 = 0` returns the error tuple: `aJSC / aJ0` produces
`inf`/`nan` (no exception) and `np.arange` then raises, caught by the
`except` clause. -/
lemma calculateEfficiency_J0_zero {α : Type*} [LinearOrderedField α] (expf logf : α → α)
    (spec : List (α × α))
    (SolarPowerV SolarConcentration kTeV BandgapMin BandgapMax Bandgap BandgapTop : α)
    (hJ0 : aJ0Of expf kTeV spec BandgapMin BandgapMax Bandgap BandgapTop = 0) :
    calculateEfficiency expf logf spec SolarPowerV SolarConcentration kTeV
      BandgapMin BandgapMax Bandgap BandgapTop = none := by
  unfold calculateEfficiency
  by_cases hb : Bandgap < BandgapMin ∨ BandgapMax < Bandgap
  · rw [if_pos hb]
  · rw [if_neg hb]
    simp [hJ0]

/-- A solve with a bandgap strictly outside `[BandgapMin, BandgapMax]`
raises at line 601 and returns the error tuple. -/
lemma calculateEfficiency_out_of_range {α : Type*} [LinearOrderedField α]
    (expf logf : α → α) (spec : List (α × α))
    (SolarPowerV SolarConcentration kTeV BandgapMin BandgapMax Bandgap BandgapTop : α)
    (hout : Bandgap < BandgapMin ∨ BandgapMax < Bandgap) :
    calculateEfficiency expf logf spec SolarPowerV SolarConcentration kTeV
      BandgapMin BandgapMax Bandgap BandgapTop = none := by
  unfold calculateEfficiency
  rw [if_pos hout]

/-- Success characterization: with a strictly monotone `expf`, `expf 0 = 1`,
`logf` a right inverse of `expf` on positives, an in-range bandgap, at least
two selected samples and a positive `aJSC`, the solve succeeds, and the
returned curve, `Voc`, `Jsc` and efficiency are as stated. -/
lemma calculateEfficiency_success {α : Type*} [LinearOrderedField α]
    (expf logf : α → α) (spec : List (α × α))
    (SolarPowerV SolarConcentration kTeV BandgapMin BandgapMax Bandgap BandgapTop : α)
    (hmono : StrictMono expf) (he0 : expf 0 = 1)
    (hsec : ∀ x : α, 0 < x → expf (logf x) = x)
    (hkT : 0 < kTeV)
    (hpos : ∀ r ∈ spec, 0 < r.1) (hchain : (spec.map Prod.fst).Chain' (· < ·))
    (hin : ¬(Bandgap < BandgapMin ∨ BandgapMax < Bandgap))
    (hlen : 2 ≤ (selectedRows spec BandgapMin BandgapMax Bandgap BandgapTop).length)
    (hJSC : 0 < aJSCOf spec SolarConcentration BandgapMin BandgapMax Bandgap BandgapTop) :
    ∃ res, calculateEfficiency expf logf spec SolarPowerV SolarConcentration kTeV
        BandgapMin BandgapMax Bandgap BandgapTop = some res ∧
      res.aJSC = aJSCOf spec SolarConcentration BandgapMin BandgapMax Bandgap BandgapTop ∧
      res.aVOC = aVOCOf expf logf kTeV spec SolarConcentration
        BandgapMin BandgapMax Bandgap BandgapTop ∧
      res.aVoltage = aVoltageOf (res.aVOC / 500) ∧
      res.aCurrent = res.aVoltage.map (diodeJ expf kTeV res.aJSC
        (aJ0Of expf kTeV spec BandgapMin BandgapMax Bandgap BandgapTop)) ∧
      res.aEff = -100 * npMinD (List.zipWith (fun aJ aV => aJ * aV) res.aCurrent res.aVoltage)
        / (SolarPowerV * SolarConcentration) := by
  have hJ0 : 0 < aJ0Of expf kTeV spec BandgapMin BandgapMax Bandgap BandgapTop :=
    aJ0Of_pos BandgapMin BandgapMax Bandgap BandgapTop hmono he0 hkT hpos hchain hlen
  set JSC := aJSCOf spec SolarConcentration BandgapMin BandgapMax Bandgap BandgapTop with hJSCdef
  set J0 := aJ0Of expf kTeV spec BandgapMin BandgapMax Bandgap BandgapTop with hJ0def
  have hratio : (1 : α) < JSC / J0 + 1 := by
    have : 0 < JSC / J0 := div_pos hJSC hJ0
    linarith
  have hratio0 : (0 : α) < JSC / J0 + 1 := lt_trans one_pos hratio
  have hlog : 0 < logf (JSC / J0 + 1) := by
    by_contra hle
    push_neg at hle
    have hexp : expf (logf (JSC / J0 + 1)) ≤ expf 0 := hmono.monotone hle
    rw [hsec _ hratio0, he0] at hexp
    linarith
  have hVOC : 0 < kTeV * logf (JSC / J0 + 1) := mul_pos hkT hlog
  have hstep : 0 < kTeV * logf (JSC / J0 + 1) / 500 := by positivity
  have hL : logf (JSC / J0 + 1) / 500 < logf (JSC / J0 + 1) :=
    div_lt_self hlog (by norm_num)
  have hexpL : expf (logf (JSC / J0 + 1) / 500) < JSC / J0 + 1 := by
    have := hmono hL
    rwa [hsec _ hratio0] at this
  have hJ1 : diodeJ expf kTeV JSC J0
      (((1 : ℕ) : α) * (kTeV * logf (JSC / J0 + 1) / 500)) < 0 := by
    unfold diodeJ
    have harg : ((1 : ℕ) : α) * (kTeV * logf (JSC / J0 + 1) / 500) / kTeV
        = logf (JSC / J0 + 1) / 500 := by
      rw [Nat.cast_one, one_mul, mul_div_assoc, mul_div_cancel_left₀ _ (ne_of_gt hkT)]
    rw [harg]
    have h2 : J0 * (expf (logf (JSC / J0 + 1) / 500) - 1) < J0 * (JSC / J0) := by
      apply mul_lt_mul_of_pos_left _ hJ0
      linarith
    have h3 : J0 * (JSC / J0) = JSC := by
      rw [mul_comm, div_mul_cancel₀ JSC (ne_of_gt hJ0)]
    rw [h3] at h2
    linarith
  have hFF := @pmFold_isSome α _ expf kTeV JSC J0 (kTeV * logf (JSC / J0 + 1)) hstep hJ1
  obtain ⟨f, hf⟩ := Option.isSome_iff_exists.mp hFF
  unfold calculateEfficiency
  rw [if_neg hin]
  simp only [← hJSCdef, ← hJ0def]
  rw [if_neg hJ0.ne', if_neg (not_le.mpr hratio0), if_neg hstep.ne']
  rw [hf]
  rw [aVoltageOf_cons]
  simp only [List.map_cons, List.zipWith_cons_cons]
  refine ⟨_, rfl, rfl, rfl, (aVoltageOf_cons _).symm, by simp only [List.map_cons], ?_⟩
  simp only [List.zipWith_cons_cons, npMinD]

/-- Inversion: a successful solve implies that every guard passed, and (for
well-behaved spectrum and `expf`/`logf`) that `aJ0 > 0`, `aJSC > 0` and
`logf(aJSC/aJ0 + 1) > 0`. -/
lemma calculateEfficiency_some_inv {α : Type*} [LinearOrderedField α]
    {expf logf : α → α} {spec : List (α × α)}
    {SolarPowerV SolarConcentration kTeV BandgapMin BandgapMax Bandgap BandgapTop : α}
    {res : SQResult α}
    (hmono : StrictMono expf) (he0 : expf 0 = 1)
    (hsec : ∀ x : α, 0 < x → expf (logf x) = x) (hkT : 0 < kTeV)
    (hpos : ∀ r ∈ spec, 0 < r.1) (hI : ∀ r ∈ spec, 0 ≤ r.2)
    (hchain : (spec.map Prod.fst).Chain' (· < ·)) (hSC : 0 ≤ SolarConcentration)
    (heq : calculateEfficiency expf logf spec SolarPowerV SolarConcentration kTeV
      BandgapMin BandgapMax Bandgap BandgapTop = some res) :
    ¬(Bandgap < BandgapMin ∨ BandgapMax < Bandgap) ∧
    0 < aJ0Of expf kTeV spec BandgapMin BandgapMax Bandgap BandgapTop ∧
    0 < aJSCOf spec SolarConcentration BandgapMin BandgapMax Bandgap BandgapTop ∧
    0 < logf (aJSCOf spec SolarConcentration BandgapMin BandgapMax Bandgap BandgapTop /
      aJ0Of expf kTeV spec BandgapMin BandgapMax Bandgap BandgapTop + 1) := by
  unfold calculateEfficiency at heq
  by_cases h1 : Bandgap < BandgapMin ∨ BandgapMax < Bandgap
  · rw [if_pos h1] at heq
    exact Option.noConfusion heq
  rw [if_neg h1] at heq
  by_cases h2 : aJ0Of expf kTeV spec BandgapMin BandgapMax Bandgap BandgapTop = 0
  · rw [if_pos h2] at heq
    exact Option.noConfusion heq
  rw [if_neg h2] at heq
  by_cases h3 : aJSCOf spec SolarConcentration BandgapMin BandgapMax Bandgap BandgapTop /
      aJ0Of expf kTeV spec BandgapMin BandgapMax Bandgap BandgapTop + 1 ≤ 0
  · rw [if_pos h3] at heq
    exact Option.noConfusion heq
  rw [if_neg h3] at heq
  by_cases h4 : kTeV * logf (aJSCOf spec SolarConcentration BandgapMin BandgapMax Bandgap
      BandgapTop / aJ0Of expf kTeV spec BandgapMin BandgapMax Bandgap BandgapTop + 1) / 500 = 0
  · rw [if_pos h4] at heq
    exact Option.noConfusion heq
  have hJ0 : 0 < aJ0Of expf kTeV spec BandgapMin BandgapMax Bandgap BandgapTop :=
    lt_of_le_of_ne
      (aJ0Of_nonneg BandgapMin BandgapMax Bandgap BandgapTop hmono he0 hkT hpos hchain)
      (Ne.symm h2)
  have hJSCnn : 0 ≤ aJSCOf spec SolarConcentration BandgapMin BandgapMax Bandgap BandgapTop :=
    aJSCOf_nonneg BandgapMin BandgapMax Bandgap BandgapTop hSC
      (fun r hr => le_of_lt (hpos r hr)) hI hchain
  set JSC := aJSCOf spec SolarConcentration BandgapMin BandgapMax Bandgap BandgapTop
  set J0 := aJ0Of expf kTeV spec BandgapMin BandgapMax Bandgap BandgapTop
  have hlogne : logf (JSC / J0 + 1) ≠ 0 := by
    intro h0
    apply h4
    rw [h0]
    ring
  have hJSC : 0 < JSC := by
    rcases lt_or_eq_of_le hJSCnn with hlt | heq0
    · exact hlt
    · exfalso
      apply hlogne
      rw [← heq0, zero_div, zero_add]
      have hinj := hmono.injective
      apply hinj
      rw [hsec 1 one_pos, he0]
  have hratio : (1 : α) < JSC / J0 + 1 := by
    have : 0 < JSC / J0 := div_pos hJSC hJ0
    linarith
  have hlogpos : 0 < logf (JSC / J0 + 1) := by
    rcases lt_trichotomy (logf (JSC / J0 + 1)) 0 with hneg | hzero | hposl
    · exfalso
      have hexp : expf (logf (JSC / J0 + 1)) < expf 0 := hmono hneg
      rw [hsec _ (lt_trans one_pos hratio), he0] at hexp
      linarith
    · exact absurd hzero hlogne
    · exact hposl
  exact ⟨h1, hJ0, hJSC, hlogpos⟩

/-! ## C6: boundary bandgaps -/

def c6specZ : List (ℤ × ℤ) :=
  [(200, 1), (220, 1), (240, 1), (260, 1), (280, 1), (300, 1), (320, 1), (340, 1), (360, 1),
    (380, 1), (400, 1), (420, 1), (440, 1), (460, 1), (480, 1), (500, 1), (520, 1), (540, 1),
    (560, 1), (580, 1), (600, 1), (620, 1), (640, 1), (660, 1), (680, 1), (700, 1), (720, 1),
    (740, 1), (760, 1), (780, 1), (800, 1), (820, 1), (840, 1), (860, 1), (880, 1), (900, 1),
    (920, 1), (940, 1), (960, 1), (980, 1), (1000, 1), (1020, 1), (1040, 1), (1060, 1), (1080, 1),
    (1100, 1), (1120, 1), (1140, 1), (1160, 1), (1180, 1), (1200, 1), (1220, 1), (1240, 1),
    (1260, 1), (1280, 1), (1300, 1), (1320, 1), (1340, 1), (1360, 1), (1380, 1), (1400, 1),
    (1420, 1), (1440, 1), (1460, 1), (1480, 1), (1500, 1), (1520, 1), (1540, 1), (1560, 1),
    (1580, 1), (1600, 1), (1620, 1), (1640, 1), (1660, 1), (1680, 1), (1700, 1), (1720, 1),
    (1740, 1), (1760, 1), (1780, 1), (1800, 1), (1820, 1), (1840, 1), (1860, 1), (1880, 1),
    (1900, 1), (1920, 1), (1940, 1), (1960, 1), (1980, 1), (2000, 1), (2020, 1), (2040, 1),
    (2060, 1), (2080, 1), (2100, 1), (2120, 1), (2140, 1), (2160, 1), (2180, 1)]

/-- The C6 spectrum over ℚ (valid: 100 rows, strictly increasing
wavelengths 200..2180 nm in steps of 20, irradiance 1, power 1980 W/m²). -/
def c6spec : List (ℚ × ℚ) := castPairs ℚ c6specZ

lemma c6spec_ok : specDataOK c6spec ∧ loadSpectrumOK c6spec := by
  have hok : specDataOK c6spec :=
    specDataOK_cast c6specZ (by decide) (by decide) (by decide) (by decide)
  refine ⟨hok, hok, ?_⟩
  rw [c6spec, SolarPower_eq_trapzP, trapzP_castPairs]
  rw [show trapzP2 c6specZ = 3960 by decide]
  norm_num

lemma c6spec_sel_single :
    selectedRows (castPairs ℝ c6specZ) (nmeV ℝ / 2170) (nmeV ℝ / 210) (nmeV ℝ / 210) 0
      = castPairs ℝ [((200 : ℤ), 1)] := by
  rw [selectedRows_cast c6specZ _ _ _ _ 0 210 ?_ ?_]
  · rw [show (c6specZ.filter fun r => decide ((0 : ℤ) ≤ r.1 ∧ r.1 ≤ (210 : ℤ)))
        = [((200 : ℤ), 1)] by decide]
  · rw [aLambdaLowOf, if_neg]
    · norm_num
    · unfold CutSpectrum
      push_neg
      intro hcut
      exfalso
      have : (0 : ℝ) < nmeV ℝ / 210 := by norm_num [nmeV]
      linarith
  · norm_num [nmeV]

/-- C6 counterexample: on a valid spectrum whose wavelength table is spaced
20 nm apart, a solve with bandgap *exactly* `BandgapMax = nmeV / 210`
(where `BandgapMin = nmeV / 2170`, `BandgapMax = nmeV / 210` are the
derived domain of this spectrum) selects a single wavelength sample, so
`aJ0 = 0` and the solve fails with a solve error (modelled `none`) even
though the bandgap is exactly at the domain boundary; the claim that a
solve at `BandgapMax` always succeeds is therefore false. -/
theorem C6_counterexample :
    (specDataOK c6spec ∧ loadSpectrumOK c6spec) ∧
    ¬(nmeV ℝ / 210 < nmeV ℝ / 2170 ∨ nmeV ℝ / 210 < nmeV ℝ / 210) ∧
    calculateEfficiency Real.exp Real.log (castPairs ℝ c6specZ) 1980 1 (kTeVOf ℝ 300)
      (nmeV ℝ / 2170) (nmeV ℝ / 210) (nmeV ℝ / 210) 0 = none := by
  refine ⟨c6spec_ok, ?_, ?_⟩
  · push_neg
    constructor
    · norm_num [nmeV]
    · norm_num
  · apply calculateEfficiency_J0_zero
    apply aJ0Of_zero_of_short
    rw [c6spec_sel_single]
    norm_num [castPairs]

/-- C6 (amended): a solve with bandgap strictly below `BandgapMin` or
strictly above `BandgapMax` always fails with a solve error (the bandgap is
not silently clamped); a solve with bandgap exactly at `BandgapMin` or
`BandgapMax` passes the domain check, and succeeds provided the selected
wavelength sub-range contains at least two samples and yields a positive
short-circuit current (which can fail for sparse or dark spectra, see the
counterexample). -/
theorem C6_boundary_bandgap {α : Type*} [LinearOrderedField α]
    (expf logf : α → α) (spec : List (α × α))
    (SolarPowerV SolarConcentration kTeV BandgapMin BandgapMax : α)
    (hmono : StrictMono expf) (he0 : expf 0 = 1)
    (hsec : ∀ x : α, 0 < x → expf (logf x) = x) (hkT : 0 < kTeV)
    (hpos : ∀ r ∈ spec, 0 < r.1) (hchain : (spec.map Prod.fst).Chain' (· < ·))
    (hmm : BandgapMin ≤ BandgapMax) :
    (∀ Bandgap BandgapTop : α, (Bandgap < BandgapMin ∨ BandgapMax < Bandgap) →
      calculateEfficiency expf logf spec SolarPowerV SolarConcentration kTeV
        BandgapMin BandgapMax Bandgap BandgapTop = none) ∧
    (∀ Bandgap : α, (Bandgap = BandgapMin ∨ Bandgap = BandgapMax) →
      2 ≤ (selectedRows spec BandgapMin BandgapMax Bandgap 0).length →
      0 < aJSCOf spec SolarConcentration BandgapMin BandgapMax Bandgap 0 →
      (calculateEfficiency expf logf spec SolarPowerV SolarConcentration kTeV
        BandgapMin BandgapMax Bandgap 0).isSome) := by
  constructor
  · intro Bandgap BandgapTop hout
    exact calculateEfficiency_out_of_range expf logf spec SolarPowerV SolarConcentration
      kTeV BandgapMin BandgapMax Bandgap BandgapTop hout
  · intro Bandgap hbd hlen hJSC
    have hin : ¬(Bandgap < BandgapMin ∨ BandgapMax < Bandgap) := by
      rcases hbd with rfl | rfl
      · push_neg
        exact ⟨le_refl _, hmm⟩
      · push_neg
        exact ⟨hmm, le_refl _⟩
    obtain ⟨res, hres, -⟩ := calculateEfficiency_success expf logf spec SolarPowerV
      SolarConcentration kTeV BandgapMin BandgapMax Bandgap 0 hmono he0 hsec hkT hpos
      hchain hin hlen hJSC
    rw [hres]
    rfl

/-- Witness for C6: the amended statement applied to the two-row spectrum,
with both conjuncts evaluated at concrete bandgaps. -/
theorem C6_witness :
    ((1 : ℚ) / 10 ≤ 10) ∧
    (∀ Bandgap BandgapTop : ℚ, (Bandgap < 1 / 10 ∨ 10 < Bandgap) →
      calculateEfficiency (fun x => x + 1) (fun x => x - 1) c10spec 1 1 1
        (1 / 10) 10 Bandgap BandgapTop = none) ∧
    (∀ Bandgap : ℚ, (Bandgap = 1 / 10 ∨ Bandgap = 10) →
      2 ≤ (selectedRows c10spec (1 / 10) 10 Bandgap 0).length →
      0 < aJSCOf c10spec 1 (1 / 10) 10 Bandgap 0 →
      (calculateEfficiency (fun x => x + 1) (fun x => x - 1) c10spec 1 1 1
        (1 / 10) 10 Bandgap 0).isSome) := by
  have hmain := C6_boundary_bandgap (fun x : ℚ => x + 1) (fun x : ℚ => x - 1) c10spec 1 1 1
    (1 / 10) 10 strictMono_add_one (by norm_num)
    (fun x _ => by ring) (by norm_num)
    (by norm_num [c10spec, List.forall_mem_cons])
    (by norm_num [c10spec, List.chain'_cons])
    (by norm_num)
  exact ⟨by norm_num, hmain.1, hmain.2⟩

/-! ## C9: invariants of a successfully computed J-V characteristic -/

lemma aVoltageOf_chain {α : Type*} [LinearOrderedField α] {s : α} (hs : 0 < s) :
    (aVoltageOf s).Chain' (· < ·) := by
  unfold aVoltageOf
  apply List.chain'_map_of_chain' (R := fun a b : ℕ => a < b)
  · intro a b hab
    have hcast : (a : α) < (b : α) := by exact_mod_cast hab
    exact mul_lt_mul_of_pos_right hcast hs
  · rw [List.chain'_iff_pairwise]
    exact List.pairwise_lt_range 501

lemma aVoltageOf_head {α : Type*} [LinearOrderedField α] (s : α) :
    (aVoltageOf s).head? = some 0 := by
  rw [aVoltageOf_cons]
  simp

lemma aVoltageOf_getLast {α : Type*} [LinearOrderedField α] (s : α) :
    (aVoltageOf s).getLast? = some (((500 : ℕ) : α) * s) := by
  unfold aVoltageOf
  rw [show (501 : ℕ) = 500 + 1 from rfl, List.range_succ, List.map_append]
  simp

lemma getLast?_map_list {α β : Type*} (f : α → β) :
    ∀ l : List α, (l.map f).getLast? = l.getLast?.map f
  | [] => rfl
  | [_] => rfl
  | a :: b :: t => by
    simp only [List.map_cons, List.getLast?_cons_cons]
    have hrec := getLast?_map_list f (b :: t)
    simpa using hrec

lemma head?_map_list {α β : Type*} (f : α → β) (l : List α) :
    (l.map f).head? = l.head?.map f := by
  cases l <;> rfl

lemma diodeJ_monotone {α : Type*} [LinearOrderedField α] {expf : α → α}
    {kTeV aJSC aJ0 : α} (hmono : StrictMono expf) (hkT : 0 < kTeV) (hJ0 : 0 ≤ aJ0) :
    Monotone (diodeJ expf kTeV aJSC aJ0) := by
  intro a b hab
  unfold diodeJ
  have harg : a / kTeV ≤ b / kTeV := div_le_div_of_nonneg_right hab hkT.le
  have hexp : expf (a / kTeV) ≤ expf (b / kTeV) := hmono.monotone harg
  have hmul : aJ0 * (expf (a / kTeV) - 1) ≤ aJ0 * (expf (b / kTeV) - 1) :=
    mul_le_mul_of_nonneg_left (by linarith) hJ0
  linarith

lemma all_le_getLast {α : Type*} [LinearOrderedField α] :
    ∀ {l : List α} {z : α}, l.Chain' (· ≤ ·) → l.getLast? = some z → ∀ x ∈ l, x ≤ z
  | [], _, _, _, x, hx => by cases hx
  | [a], z, _, hz, x, hx => by
    rcases List.mem_singleton.mp hx with rfl
    have : x = z := by simpa using hz
    exact le_of_eq this
  | a :: b :: t, z, hch, hz, x, hx => by
    rw [List.chain'_cons] at hch
    have hz' : (b :: t).getLast? = some z := by
      simpa [List.getLast?_cons_cons] using hz
    rcases List.mem_cons.mp hx with rfl | hx'
    · have hb : b ≤ z := all_le_getLast hch.2 hz' b (List.mem_cons_self _ _)
      exact le_trans hch.1 hb
    · exact all_le_getLast hch.2 hz' x hx'

/-- C9: every successfully computed J-V characteristic has strictly
increasing voltage samples starting at 0 and ending at `Voc`, and a current
that starts at `-Jsc`, is monotonically non-decreasing, stays `≤ 0`, and
reaches 0 at `Voc`. -/
theorem C9_jv_curve_invariants {α : Type*} [LinearOrderedField α]
    (expf logf : α → α) (spec : List (α × α))
    (SolarPowerV SolarConcentration kTeV BandgapMin BandgapMax Bandgap BandgapTop : α)
    (hmono : StrictMono expf) (he0 : expf 0 = 1)
    (hsec : ∀ x : α, 0 < x → expf (logf x) = x) (hkT : 0 < kTeV)
    (hpos : ∀ r ∈ spec, 0 < r.1) (hI : ∀ r ∈ spec, 0 ≤ r.2)
    (hchain : (spec.map Prod.fst).Chain' (· < ·)) (hSC : 0 ≤ SolarConcentration) :
    ∀ res, calculateEfficiency expf logf spec SolarPowerV SolarConcentration kTeV
        BandgapMin BandgapMax Bandgap BandgapTop = some res →
      res.aVoltage.Chain' (· < ·) ∧
      res.aVoltage.head? = some 0 ∧
      res.aVoltage.getLast? = some res.aVOC ∧
      res.aCurrent.head? = some (-res.aJSC) ∧
      res.aCurrent.Chain' (· ≤ ·) ∧
      res.aCurrent.getLast? = some 0 ∧
      (∀ j ∈ res.aCurrent, j ≤ 0) := by
  intro res heq
  obtain ⟨hin, hJ0, hJSC, hlog⟩ :=
    calculateEfficiency_some_inv hmono he0 hsec hkT hpos hI hchain hSC heq
  have hlen : 2 ≤ (selectedRows spec BandgapMin BandgapMax Bandgap BandgapTop).length := by
    by_contra hlt
    push_neg at hlt
    have hz := aJ0Of_zero_of_short expf kTeV spec BandgapMin BandgapMax Bandgap BandgapTop
      (Nat.lt_succ_iff.mp hlt)
    rw [hz] at hJ0
    exact lt_irrefl 0 hJ0
  obtain ⟨res2, hres2, hfJSC, hfVOC, hfV, hfC, hfE⟩ :=
    calculateEfficiency_success expf logf spec SolarPowerV SolarConcentration kTeV
      BandgapMin BandgapMax Bandgap BandgapTop hmono he0 hsec hkT hpos hchain hin hlen hJSC
  rw [heq] at hres2
  obtain rfl : res = res2 := Option.some.inj hres2
  set JSC := aJSCOf spec SolarConcentration BandgapMin BandgapMax Bandgap BandgapTop
    with hJSCd
  set J0 := aJ0Of expf kTeV spec BandgapMin BandgapMax Bandgap BandgapTop with hJ0d
  have hratio0 : (0 : α) < JSC / J0 + 1 := by
    have : 0 < JSC / J0 := div_pos hJSC hJ0
    linarith
  have hVOC : 0 < res.aVOC := by
    rw [hfVOC]
    unfold aVOCOf
    exact mul_pos hkT hlog
  have hstep : 0 < res.aVOC / 500 := by positivity
  have hVOCval : res.aVOC = kTeV * logf (JSC / J0 + 1) := by
    rw [hfVOC]
    rfl
  refine ⟨?_, ?_, ?_, ?_, ?_, ?_, ?_⟩
  · rw [hfV]
    exact aVoltageOf_chain hstep
  · rw [hfV]
    exact aVoltageOf_head _
  · rw [hfV, aVoltageOf_getLast]
    congr 1
    push_cast
    rw [mul_comm, div_mul_cancel₀ _ (by norm_num : (500 : α) ≠ 0)]
  · rw [hfC, head?_map_list, hfV, aVoltageOf_head]
    simp only [Option.map_some']
    congr 1
    unfold diodeJ
    rw [zero_div, he0, hfJSC]
    ring
  · rw [hfC]
    apply List.chain'_map_of_chain' (R := (· < ·))
    · intro a b hab
      exact diodeJ_monotone hmono hkT (le_of_lt hJ0) (le_of_lt hab)
    · rw [hfV]
      exact aVoltageOf_chain hstep
  · rw [hfC, getLast?_map_list, hfV, aVoltageOf_getLast]
    simp only [Option.map_some']
    congr 1
    have hV500 : ((500 : ℕ) : α) * (res.aVOC / 500) = res.aVOC := by
      push_cast
      rw [mul_comm, div_mul_cancel₀ _ (by norm_num : (500 : α) ≠ 0)]
    rw [hV500]
    unfold diodeJ
    have hdiv : res.aVOC / kTeV = logf (JSC / J0 + 1) := by
      rw [hVOCval, mul_div_cancel_left₀ _ (ne_of_gt hkT)]
    rw [hdiv, hsec _ hratio0, hfJSC]
    have hJJ : J0 * (JSC / J0 + 1 - 1) = JSC := by
      rw [add_sub_cancel_right, mul_comm, div_mul_cancel₀ _ (ne_of_gt hJ0)]
    rw [hJJ]
    ring
  · have hchainC : res.aCurrent.Chain' (· ≤ ·) := by
      rw [hfC]
      apply List.chain'_map_of_chain' (R := (· < ·))
      · intro a b hab
        exact diodeJ_monotone hmono hkT (le_of_lt hJ0) (le_of_lt hab)
      · rw [hfV]
        exact aVoltageOf_chain hstep
    have hlast : res.aCurrent.getLast? = some 0 := by
      rw [hfC, getLast?_map_list, hfV, aVoltageOf_getLast]
      simp only [Option.map_some']
      congr 1
      have hV500 : ((500 : ℕ) : α) * (res.aVOC / 500) = res.aVOC := by
        push_cast
        rw [mul_comm, div_mul_cancel₀ _ (by norm_num : (500 : α) ≠ 0)]
      rw [hV500]
      unfold diodeJ
      have hdiv : res.aVOC / kTeV = logf (JSC / J0 + 1) := by
        rw [hVOCval, mul_div_cancel_left₀ _ (ne_of_gt hkT)]
      rw [hdiv, hsec _ hratio0, hfJSC]
      have hJJ : J0 * (JSC / J0 + 1 - 1) = JSC := by
        rw [add_sub_cancel_right, mul_comm, div_mul_cancel₀ _ (ne_of_gt hJ0)]
      rw [hJJ]
      ring
    exact all_le_getLast hchainC hlast

/-- Witness for C9: the theorem applied at the two-row spectrum with
`expf x = x + 1`, `logf x = x - 1`. -/
theorem C9_witness :
    (StrictMono (fun x : ℚ => x + 1) ∧ (0 : ℚ) < 1) ∧
    (∀ res, calculateEfficiency (fun x : ℚ => x + 1) (fun x : ℚ => x - 1) c10spec
        1 1 1 (1 / 10) 10 (3 / 5) 0 = some res →
      res.aVoltage.Chain' (· < ·) ∧
      res.aVoltage.head? = some 0 ∧
      res.aVoltage.getLast? = some res.aVOC ∧
      res.aCurrent.head? = some (-res.aJSC) ∧
      res.aCurrent.Chain' (· ≤ ·) ∧
      res.aCurrent.getLast? = some 0 ∧
      (∀ j ∈ res.aCurrent, j ≤ 0)) :=
  ⟨⟨strictMono_add_one, by norm_num⟩,
   C9_jv_curve_invariants (fun x : ℚ => x + 1) (fun x : ℚ => x - 1) c10spec
     1 1 1 (1 / 10) 10 (3 / 5) 0
     strictMono_add_one (by norm_num) (fun x _ => by ring) (by norm_num)
     (by norm_num [c10spec, List.forall_mem_cons])
     (by norm_num [c10spec, List.forall_mem_cons])
     (by norm_num [c10spec, List.chain'_cons])
     (by norm_num)⟩

/-! ## C4: the bandgap sweep (`loadSpectrum` lines 554-560, `run` lines 838-871) -/

/-- Bound `self.WavelengthMin = self.Wavelength[0] + 10.0` (line 554). -/
def WavelengthMinOf {α : Type*} [LinearOrderedField α] (spec : List (α × α)) : α :=
  (spec.headD (0, 0)).1 + 10

/-- Bound `self.WavelengthMax = self.Wavelength[len(self.Wavelength) - 1] - 10.0`
(line 555). -/
def WavelengthMaxOf {α : Type*} [LinearOrderedField α] (spec : List (α × α)) : α :=
  (spec.getLastD (0, 0)).1 - 10

/-- Bound `self.BandgapMin = self.nmeV / self.WavelengthMax` (line 556). -/
def BandgapMinOf {α : Type*} [LinearOrderedField α] (spec : List (α × α)) : α :=
  nmeV α / WavelengthMaxOf spec

/-- Bound `self.BandgapMax = self.nmeV / self.WavelengthMin` (line 557). -/
def BandgapMaxOf {α : Type*} [LinearOrderedField α] (spec : List (α × α)) : α :=
  nmeV α / WavelengthMinOf spec

/-- Grid `self.BandgapRange = np.arange(self.BandgapMin, self.BandgapMax,
(self.BandgapMax - self.BandgapMin) / 500.0)` (line 559): in exact arithmetic,
with `BandgapMin < BandgapMax`, `np.arange` yields
`ceil((stop - start) / step) = 500` samples `start + k * step`. -/
def BandgapRangeOf {α : Type*} [LinearOrderedField α] (spec : List (α × α)) : List α :=
  (List.range 500).map fun k : ℕ =>
    BandgapMinOf spec + (k : α) * ((BandgapMaxOf spec - BandgapMinOf spec) / 500)

/-- The sweep loop of `run` (lines 838-871): each gap is solved by
`calculateEfficiency(aGap, 0.0)` and its efficiency appended to
`self.Efficiency`; on an error tuple the loop aborts (`return False`,
line 849), so the recorded efficiencies are those of the gaps preceding the
first failure. -/
def sweepGo {α : Type*} [LinearOrderedField α] (expf logf : α → α) (spec : List (α × α))
    (SolarPowerV SolarConcentration kTeV BandgapMin BandgapMax : α) : List α → List α
  | [] => []
  | g :: t =>
    match calculateEfficiency expf logf spec SolarPowerV SolarConcentration kTeV
        BandgapMin BandgapMax g 0 with
    | none => []
    | some res =>
      res.aEff :: sweepGo expf logf spec SolarPowerV SolarConcentration kTeV
        BandgapMin BandgapMax t

/-- Efficiencies recorded by the sweep (`self.Efficiency`, line 864), with the
solar power and the bandgap domain those computed by `loadSpectrum` from the
spectrum itself. -/
def runSweep {α : Type*} [LinearOrderedField α] (expf logf : α → α) (spec : List (α × α))
    (SolarConcentration kTeV : α) : List α :=
  sweepGo expf logf spec (SolarPower spec) SolarConcentration kTeV
    (BandgapMinOf spec) (BandgapMaxOf spec) (BandgapRangeOf spec)

/-- Tracked maximum `self.SQ_Efficiency`: initialised to `0.0` (line 830) and
updated by `if aEff > self.SQ_Efficiency` (lines 852-853). -/
def sweepMax {α : Type*} [LinearOrderedField α] (expf logf : α → α) (spec : List (α × α))
    (SolarConcentration kTeV : α) : α :=
  (runSweep expf logf spec SolarConcentration kTeV).foldl max 0

lemma init_le_foldl_max {α : Type*} [LinearOrderedField α] {l : List α} {a : α} :
    a ≤ l.foldl max a := by
  induction l generalizing a with
  | nil => exact le_refl a
  | cons x t ih => exact le_trans (le_max_left a x) ih

lemma mem_le_foldl_max {α : Type*} [LinearOrderedField α] {l : List α} {a x : α}
    (hx : x ∈ l) : x ≤ l.foldl max a := by
  induction l generalizing a with
  | nil => cases hx
  | cons y t ih =>
    rcases List.mem_cons.mp hx with hx | hx
    · subst hx
      exact le_trans (le_max_right a x) (init_le_foldl_max (l := t) (a := max a x))
    · exact ih hx

/-- Every recorded sweep efficiency comes from a successful solve at some gap
(with `BandgapTop = 0`). -/
lemma mem_sweepGo {α : Type*} [LinearOrderedField α] {expf logf : α → α}
    {spec : List (α × α)} {SolarPowerV SolarConcentration kTeV BandgapMin BandgapMax : α}
    {e : α} :
    ∀ {gaps : List α}, e ∈ sweepGo expf logf spec SolarPowerV SolarConcentration kTeV
        BandgapMin BandgapMax gaps →
      ∃ g res, calculateEfficiency expf logf spec SolarPowerV SolarConcentration kTeV
          BandgapMin BandgapMax g 0 = some res ∧ e = res.aEff := by
  intro gaps
  induction gaps with
  | nil =>
    intro h
    cases h
  | cons g t ih =>
    intro h
    rw [sweepGo] at h
    cases hc : calculateEfficiency expf logf spec SolarPowerV SolarConcentration kTeV
        BandgapMin BandgapMax g 0 with
    | none =>
      rw [hc] at h
      cases h
    | some res =>
      rw [hc] at h
      rcases List.mem_cons.mp h with heq | h2
      · exact ⟨g, res, hc, heq⟩
      · exact ih h2

/-- A successful solve always reports a non-negative efficiency: the product
array `aCurrent * aVoltage` starts with `J(0) * 0 = 0`, so its minimum is
`≤ 0`, and `aEff = -100 * min / (SolarPower * SolarConcentration)` with a
positive denominator. -/
lemma calculateEfficiency_aEff_nonneg {α : Type*} [LinearOrderedField α]
    {expf logf : α → α} {spec : List (α × α)}
    {SolarPowerV SolarConcentration kTeV BandgapMin BandgapMax Bandgap BandgapTop : α}
    {res : SQResult α}
    (hmono : StrictMono expf) (he0 : expf 0 = 1)
    (hsec : ∀ x : α, 0 < x → expf (logf x) = x) (hkT : 0 < kTeV)
    (hpos : ∀ r ∈ spec, 0 < r.1) (hI : ∀ r ∈ spec, 0 ≤ r.2)
    (hchain : (spec.map Prod.fst).Chain' (· < ·)) (hSC : 0 ≤ SolarConcentration)
    (hPS : 0 < SolarPowerV * SolarConcentration)
    (heq : calculateEfficiency expf logf spec SolarPowerV SolarConcentration kTeV
      BandgapMin BandgapMax Bandgap BandgapTop = some res) :
    0 ≤ res.aEff := by
  obtain ⟨hin, hJ0, hJSC, hlog⟩ :=
    calculateEfficiency_some_inv hmono he0 hsec hkT hpos hI hchain hSC heq
  have hlen : 2 ≤ (selectedRows spec BandgapMin BandgapMax Bandgap BandgapTop).length := by
    by_contra hlt
    push_neg at hlt
    have hz := aJ0Of_zero_of_short expf kTeV spec BandgapMin BandgapMax Bandgap BandgapTop
      (Nat.lt_succ_iff.mp hlt)
    rw [hz] at hJ0
    exact lt_irrefl 0 hJ0
  obtain ⟨res2, hres2, hfJSC, hfVOC, hfV, hfC, hfE⟩ :=
    calculateEfficiency_success expf logf spec SolarPowerV SolarConcentration kTeV
      BandgapMin BandgapMax Bandgap BandgapTop hmono he0 hsec hkT hpos hchain hin hlen hJSC
  rw [heq] at hres2
  obtain rfl : res = res2 := Option.some.inj hres2
  rw [hfE]
  have hmem : (0 : α) ∈ List.zipWith (fun aJ aV => aJ * aV) res.aCurrent res.aVoltage := by
    rw [hfC, hfV, aVoltageOf_cons]
    simp only [List.map_cons, List.zipWith_cons_cons]
    have h0 : diodeJ expf kTeV res.aJSC
        (aJ0Of expf kTeV spec BandgapMin BandgapMax Bandgap BandgapTop)
        (((0 : ℕ) : α) * (res.aVOC / 500)) * (((0 : ℕ) : α) * (res.aVOC / 500)) = 0 := by
      simp
    exact List.mem_cons.mpr (Or.inl h0.symm)
  have hmin : npMinD (List.zipWith (fun aJ aV => aJ * aV) res.aCurrent res.aVoltage) ≤ 0 :=
    npMinD_le_mem hmem
  have hnum : 0 ≤ -100 * npMinD (List.zipWith (fun aJ aV => aJ * aV)
      res.aCurrent res.aVoltage) := by
    linarith
  exact div_nonneg hnum hPS.le

/-- C4 (amended): for any spectrum passing the data checks (positive,
strictly increasing wavelengths), positive solar power and concentration and
a well-behaved `exp`/`log`, every efficiency recorded by the bandgap sweep
is non-negative, and so is the tracked maximum.  (The upper bound `100` of
the original claim is false: see the counterexample.) -/
theorem C4_sweep_efficiencies_nonneg {α : Type*} [LinearOrderedField α]
    (expf logf : α → α) (spec : List (α × α)) (SolarConcentration kTeV : α)
    (hmono : StrictMono expf) (he0 : expf 0 = 1)
    (hsec : ∀ x : α, 0 < x → expf (logf x) = x) (hkT : 0 < kTeV)
    (hpos : ∀ r ∈ spec, 0 < r.1) (hI : ∀ r ∈ spec, 0 ≤ r.2)
    (hchain : (spec.map Prod.fst).Chain' (· < ·))
    (hSC : 0 < SolarConcentration) (hP : 0 < SolarPower spec) :
    (∀ e ∈ runSweep expf logf spec SolarConcentration kTeV, 0 ≤ e) ∧
    0 ≤ sweepMax expf logf spec SolarConcentration kTeV := by
  refine ⟨?_, ?_⟩
  · intro e he
    obtain ⟨g, res, hg, rfl⟩ := mem_sweepGo he
    exact calculateEfficiency_aEff_nonneg hmono he0 hsec hkT hpos hI hchain hSC.le
      (mul_pos hP hSC) hg
  · exact init_le_foldl_max

/-- Witness for the amended C4 at the two-row spectrum with `expf x = x + 1`,
`logf x = x - 1`. -/
theorem C4_witness :
    (StrictMono (fun x : ℚ => x + 1) ∧ (0 : ℚ) < 1 ∧ 0 < SolarPower c10spec) ∧
    ((∀ e ∈ runSweep (fun x : ℚ => x + 1) (fun x : ℚ => x - 1) c10spec 1 1, 0 ≤ e) ∧
      0 ≤ sweepMax (fun x : ℚ => x + 1) (fun x : ℚ => x - 1) c10spec 1 1) := by
  have hP : (0 : ℚ) < SolarPower c10spec := by
    rw [SolarPower_eq_trapzP]
    norm_num [c10spec, trapzP]
  refine ⟨⟨strictMono_add_one, by norm_num, hP⟩, ?_⟩
  exact C4_sweep_efficiencies_nonneg (fun x : ℚ => x + 1) (fun x : ℚ => x - 1) c10spec 1 1
    strictMono_add_one (by norm_num) (fun x _ => by ring) (by norm_num)
    (by norm_num [c10spec, List.forall_mem_cons])
    (by norm_num [c10spec, List.forall_mem_cons])
    (by norm_num [c10spec, List.chain'_cons])
    (by norm_num) hP

/-! ### Certified numeric bounds on the real exponential

Obtained from the Taylor series of `exp` on `[0, 1]` (`Real.exp_bound'` for
upper bounds, `Real.sum_le_exp_of_nonneg` for lower bounds) and the decimal
bounds on `exp 1` (`Real.exp_one_lt_d9`, `Real.exp_one_gt_d9`). -/

lemma exp_48056_ub : Real.exp (48056 / 10000) ≤ 489 / 4 := by
  have hsplit : (48056 / 10000 : ℝ) = 4 + 8056 / 10000 := by norm_num
  rw [hsplit, Real.exp_add]
  have h4 : Real.exp 4 = Real.exp 1 ^ 4 := by
    rw [← Real.exp_nat_mul]
    norm_num
  have h4ub : Real.exp 4 ≤ (2.7182818286 : ℝ) ^ 4 := by
    rw [h4]
    exact pow_le_pow_left₀ (Real.exp_pos 1).le (le_of_lt Real.exp_one_lt_d9) 4
  have hfub : Real.exp (8056 / 10000 : ℝ) ≤ 22381 / 10000 := by
    refine le_trans (Real.exp_bound' (by norm_num) (by norm_num) (n := 9) (by norm_num)) ?_
    norm_num [Finset.sum_range_succ, Finset.sum_range_zero, Nat.factorial]
  calc Real.exp 4 * Real.exp (8056 / 10000 : ℝ)
      ≤ (2.7182818286 : ℝ) ^ 4 * (22381 / 10000) :=
        mul_le_mul h4ub hfub (Real.exp_pos _).le (by positivity)
    _ ≤ 489 / 4 := by norm_num

lemma exp_48055_lb : (122 : ℝ) ≤ Real.exp (48055 / 10000) := by
  have hsplit : (48055 / 10000 : ℝ) = 4 + 8055 / 10000 := by norm_num
  rw [hsplit, Real.exp_add]
  have h4 : Real.exp 4 = Real.exp 1 ^ 4 := by
    rw [← Real.exp_nat_mul]
    norm_num
  have h4lb : (2.7182818283 : ℝ) ^ 4 ≤ Real.exp 4 := by
    rw [h4]
    exact pow_le_pow_left₀ (by norm_num) (le_of_lt Real.exp_one_gt_d9) 4
  have hflb : (22378 / 10000 : ℝ) ≤ Real.exp (8055 / 10000) := by
    refine le_trans ?_ (Real.sum_le_exp_of_nonneg (by norm_num) 9)
    norm_num [Finset.sum_range_succ, Finset.sum_range_zero, Nat.factorial]
  calc (122 : ℝ) ≤ (2.7182818283 : ℝ) ^ 4 * (22378 / 10000) := by norm_num
    _ ≤ Real.exp 4 * Real.exp (8055 / 10000) :=
        mul_le_mul h4lb hflb (by norm_num) (Real.exp_pos _).le

lemma exp_1153_ub : Real.exp (1153 / 100) ≤ 101800 := by
  have hsplit : (1153 / 100 : ℝ) = 11 + 53 / 100 := by norm_num
  rw [hsplit, Real.exp_add]
  have h11 : Real.exp 11 = Real.exp 1 ^ 11 := by
    rw [← Real.exp_nat_mul]
    norm_num
  have h11ub : Real.exp 11 ≤ (2.7182818286 : ℝ) ^ 11 := by
    rw [h11]
    exact pow_le_pow_left₀ (Real.exp_pos 1).le (le_of_lt Real.exp_one_lt_d9) 11
  have hfub : Real.exp (53 / 100 : ℝ) ≤ 1699 / 1000 := by
    refine le_trans (Real.exp_bound' (by norm_num) (by norm_num) (n := 9) (by norm_num)) ?_
    norm_num [Finset.sum_range_succ, Finset.sum_range_zero, Nat.factorial]
  calc Real.exp 11 * Real.exp (53 / 100 : ℝ)
      ≤ (2.7182818286 : ℝ) ^ 11 * (1699 / 1000) :=
        mul_le_mul h11ub hfub (Real.exp_pos _).le (by positivity)
    _ ≤ 101800 := by norm_num

lemma exp_1261_lb : (296200 : ℝ) ≤ Real.exp (1261 / 100) := by
  have hsplit : (1261 / 100 : ℝ) = 12 + 61 / 100 := by norm_num
  rw [hsplit, Real.exp_add]
  have h12 : Real.exp 12 = Real.exp 1 ^ 12 := by
    rw [← Real.exp_nat_mul]
    norm_num
  have h12lb : (2.7182818283 : ℝ) ^ 12 ≤ Real.exp 12 := by
    rw [h12]
    exact pow_le_pow_left₀ (by norm_num) (le_of_lt Real.exp_one_gt_d9) 12
  have hflb : (18404 / 10000 : ℝ) ≤ Real.exp (61 / 100) := by
    refine le_trans ?_ (Real.sum_le_exp_of_nonneg (by norm_num) 9)
    norm_num [Finset.sum_range_succ, Finset.sum_range_zero, Nat.factorial]
  calc (296200 : ℝ) ≤ (2.7182818283 : ℝ) ^ 12 * (18404 / 10000) := by norm_num
    _ ≤ Real.exp 12 * Real.exp (61 / 100) :=
        mul_le_mul h12lb hflb (by norm_num) (Real.exp_pos _).le

lemma exp_10088_ub : Real.exp (10088 / 1000) ≤ 24053 := by
  have hsplit : (10088 / 1000 : ℝ) = 10 + 88 / 1000 := by norm_num
  rw [hsplit, Real.exp_add]
  have h10 : Real.exp 10 = Real.exp 1 ^ 10 := by
    rw [← Real.exp_nat_mul]
    norm_num
  have h10ub : Real.exp 10 ≤ (2.7182818286 : ℝ) ^ 10 := by
    rw [h10]
    exact pow_le_pow_left₀ (Real.exp_pos 1).le (le_of_lt Real.exp_one_lt_d9) 10
  have hfub : Real.exp (88 / 1000 : ℝ) ≤ 10920 / 10000 := by
    refine le_trans (Real.exp_bound' (by norm_num) (by norm_num) (n := 7) (by norm_num)) ?_
    norm_num [Finset.sum_range_succ, Finset.sum_range_zero, Nat.factorial]
  calc Real.exp 10 * Real.exp (88 / 1000 : ℝ)
      ≤ (2.7182818286 : ℝ) ^ 10 * (10920 / 10000) :=
        mul_le_mul h10ub hfub (Real.exp_pos _).le (by positivity)
    _ ≤ 24053 := by norm_num

/-! ### Bounds on trapezoid sums with decreasing abscissae -/

/-- Dropping the first sample of a decreasing-abscissa, non-positive-ordinate
trapezoid sum can only decrease it. -/
lemma trapzP_tail_le {α : Type*} [LinearOrderedField α] {a : α × α} {t : List (α × α)}
    (hx : (((a :: t).map Prod.fst).Chain' (· ≥ ·))) (hy : ∀ r ∈ a :: t, r.2 ≤ 0) :
    trapzP t ≤ trapzP (a :: t) := by
  cases t with
  | nil =>
    obtain ⟨xa, ya⟩ := a
    simp [trapzP]
  | cons b t2 =>
    obtain ⟨xa, ya⟩ := a
    obtain ⟨xb, yb⟩ := b
    rw [trapzP]
    have hterm : 0 ≤ (xb - xa) * (ya + yb) / 2 := by
      simp only [List.map_cons, List.chain'_cons] at hx
      have h1 : xb - xa ≤ 0 := sub_nonpos.mpr hx.1
      have h2 : ya + yb ≤ 0 := add_nonpos (hy _ (List.mem_cons_self _ _))
        (hy _ (List.mem_cons_of_mem _ (List.mem_cons_self _ _)))
      have hm := mul_nonneg (neg_nonneg.mpr h1) (neg_nonneg.mpr h2)
      rw [neg_mul_neg] at hm
      linarith
    linarith

/-- A decreasing-abscissa, non-positive-ordinate trapezoid sum dominates the
sum over any suffix. -/
lemma trapzP_drop_le {α : Type*} [LinearOrderedField α] (n : ℕ) :
    ∀ {l : List (α × α)}, ((l.map Prod.fst).Chain' (· ≥ ·)) → (∀ r ∈ l, r.2 ≤ 0) →
      trapzP (l.drop n) ≤ trapzP l := by
  induction n with
  | zero =>
    intro l _ _
    simp
  | succ m ih =>
    intro l hx hy
    cases l with
    | nil => simp
    | cons a t =>
      rw [List.drop_succ_cons]
      refine le_trans (ih ?_ ?_) (trapzP_tail_le hx hy)
      · simp only [List.map_cons] at hx
        exact hx.tail
      · intro r hr
        exact hy r (List.mem_cons_of_mem _ hr)

/-- With decreasing abscissae and ordinates in `[-Y, 0]`, a trapezoid sum is
at most the abscissa span times `Y`. -/
lemma trapzP_le_span {α : Type*} [LinearOrderedField α] {Y : α} :
    ∀ (l : List (α × α)) (a z : α × α),
      ((l.map Prod.fst).Chain' (· ≥ ·)) → (∀ r ∈ l, -Y ≤ r.2 ∧ r.2 ≤ 0) →
      l.head? = some a → l.getLast? = some z →
      trapzP l ≤ (a.1 - z.1) * Y := by
  intro l
  induction l with
  | nil =>
    intro a z _ _ hh _
    cases hh
  | cons r1 t ih =>
    intro a z hx hy hh hl
    have ha : r1 = a := by simpa using hh
    subst ha
    cases t with
    | nil =>
      have hz : r1 = z := by simpa using hl
      subst hz
      obtain ⟨x1, y1⟩ := r1
      simp [trapzP]
    | cons r2 t2 =>
      have hl2 : (r2 :: t2).getLast? = some z := by
        rw [← List.getLast?_cons_cons]
        exact hl
      have hx2 : ((r2 :: t2).map Prod.fst).Chain' (· ≥ ·) := by
        simp only [List.map_cons] at hx ⊢
        exact hx.tail
      have hy2 : ∀ r ∈ r2 :: t2, -Y ≤ r.2 ∧ r.2 ≤ 0 := fun r hr =>
        hy r (List.mem_cons_of_mem _ hr)
      have hrec := ih r2 z hx2 hy2 rfl hl2
      have hd : r2.1 ≤ r1.1 := by
        simp only [List.map_cons, List.chain'_cons] at hx
        exact hx.1
      have hya := hy _ (List.mem_cons_self _ _)
      have hyb := hy _ (List.mem_cons_of_mem _ (List.mem_cons_self _ _))
      obtain ⟨xa, ya⟩ := r1
      obtain ⟨xb, yb⟩ := r2
      rw [trapzP]
      have hterm : (xb - xa) * (ya + yb) / 2 ≤ (xa - xb) * Y := by
        nlinarith [mul_nonneg (sub_nonneg.mpr hd)
          (by linarith [hya.1, hyb.1] : 0 ≤ 2 * Y + ya + yb)]
      calc (xb - xa) * (ya + yb) / 2 + trapzP ((xb, yb) :: t2)
          ≤ (xa - xb) * Y + (xb - z.1) * Y := add_le_add hterm hrec
        _ = (xa - z.1) * Y := by ring

/-! ### A valid spectrum on which the sweep exceeds 100 %

A narrowband far-infrared spectrum: 98 dark rows at 9000..9097 nm, then two
bright rows at 9980 nm and 9990 nm.  Total power 4515 W/m²; with
`SolarConcentration = 1000` (the maximum the GUI accepts) the very first
sweep sample, at `Bandgap = BandgapMin = nmeV / 9980`, collects the whole
bright part while its dark current stays tiny, and the efficiency exceeds
100 %. -/

def c4specZ : List (ℤ × ℤ) :=
  [(9000, 0), (9001, 0), (9002, 0), (9003, 0), (9004, 0), (9005, 0), (9006, 0), (9007, 0),
    (9008, 0), (9009, 0), (9010, 0), (9011, 0), (9012, 0), (9013, 0), (9014, 0), (9015, 0),
    (9016, 0), (9017, 0), (9018, 0), (9019, 0), (9020, 0), (9021, 0), (9022, 0), (9023, 0),
    (9024, 0), (9025, 0), (9026, 0), (9027, 0), (9028, 0), (9029, 0), (9030, 0), (9031, 0),
    (9032, 0), (9033, 0), (9034, 0), (9035, 0), (9036, 0), (9037, 0), (9038, 0), (9039, 0),
    (9040, 0), (9041, 0), (9042, 0), (9043, 0), (9044, 0), (9045, 0), (9046, 0), (9047, 0),
    (9048, 0), (9049, 0), (9050, 0), (9051, 0), (9052, 0), (9053, 0), (9054, 0), (9055, 0),
    (9056, 0), (9057, 0), (9058, 0), (9059, 0), (9060, 0), (9061, 0), (9062, 0), (9063, 0),
    (9064, 0), (9065, 0), (9066, 0), (9067, 0), (9068, 0), (9069, 0), (9070, 0), (9071, 0),
    (9072, 0), (9073, 0), (9074, 0), (9075, 0), (9076, 0), (9077, 0), (9078, 0), (9079, 0),
    (9080, 0), (9081, 0), (9082, 0), (9083, 0), (9084, 0), (9085, 0), (9086, 0), (9087, 0),
    (9088, 0), (9089, 0), (9090, 0), (9091, 0), (9092, 0), (9093, 0), (9094, 0), (9095, 0),
    (9096, 0), (9097, 0), (9980, 10), (9990, 10)]

/-- The rows selected at `Bandgap = nmeV / 9980` (cutoff wavelength 9980 nm):
the first 99 rows. -/
def c4selZ : List (ℤ × ℤ) :=
  c4specZ.filter fun r => decide ((0 : ℤ) ≤ r.1 ∧ r.1 ≤ 9980)

/-- The selection at the first sweep gap, over `ℝ`: the bandgap-domain
arguments do not matter because `BandgapTop = 0` disables the top cutoff. -/
lemma c4_sel (BMin BMax : ℝ) :
    selectedRows (castPairs ℝ c4specZ) BMin BMax (nmeV ℝ / 9980) 0
      = castPairs ℝ c4selZ := by
  have hlo : aLambdaLowOf BMin BMax (nmeV ℝ / 9980) 0 = ((0 : ℤ) : ℝ) := by
    unfold aLambdaLowOf
    rw [if_neg]
    · norm_num
    · rintro ⟨hcut, -, -⟩
      norm_num [nmeV] at hcut
  have hhi : nmeV ℝ / (nmeV ℝ / 9980) = ((9980 : ℤ) : ℝ) := by
    push_cast
    norm_num [nmeV]
  rw [selectedRows_cast c4specZ _ _ _ _ 0 9980 hlo hhi]
  rfl

/-- A trapezoid sum whose first `n + 1` ordinates vanish equals the sum over
the suffix from index `n`. -/
lemma trapzP_eq_drop_of_zeros {α : Type*} [LinearOrderedField α] :
    ∀ (n : ℕ) (l : List (α × α)), (∀ r ∈ l.take (n + 1), r.2 = 0) →
      trapzP l = trapzP (l.drop n)
  | 0, l, _ => by simp
  | n + 1, [], _ => by simp
  | n + 1, [r], _ => by
    obtain ⟨xa, ya⟩ := r
    cases n <;> simp [trapzP]
  | n + 1, r1 :: r2 :: t, hz => by
    have hy1 : r1.2 = 0 := hz r1 (by simp)
    have hy2 : r2.2 = 0 := hz r2 (by simp [List.take_succ_cons])
    have hrec : trapzP (r2 :: t) = trapzP ((r2 :: t).drop n) := by
      refine trapzP_eq_drop_of_zeros n (r2 :: t) ?_
      intro r hr
      refine hz r ?_
      rw [List.take_succ_cons]
      exact List.mem_cons_of_mem _ hr
    obtain ⟨xa, ya⟩ := r1
    obtain ⟨xb, yb⟩ := r2
    rw [List.drop_succ_cons, ← hrec, trapzP]
    simp only at hy1 hy2
    rw [hy1, hy2]
    ring

/-- Exact bounds on the short-circuit current of the counterexample: the
only nonzero flux contribution is the final trapezoid
`(9980 - 9097) * flux(9980) / 2`. -/
lemma c4_Jsc_bounds (BMin BMax : ℝ) :
    35538155 ≤ aJSCOf (castPairs ℝ c4specZ) 1000 BMin BMax (nmeV ℝ / 9980) 0 ∧
    aJSCOf (castPairs ℝ c4specZ) 1000 BMin BMax (nmeV ℝ / 9980) 0 ≤ 35538156 := by
  rw [aJSCOf_eq_trapzP, c4_sel BMin BMax]
  rw [trapzP_eq_drop_of_zeros 97 _ ?_]
  · rw [← List.map_drop, castPairs, ← List.map_drop]
    rw [show c4selZ.drop 97 = [((9097 : ℤ), (0 : ℤ)), ((9980 : ℤ), (10 : ℤ))] from by decide]
    simp only [List.map_cons, List.map_nil]
    rw [trapzP]
    constructor <;> norm_num [trapzP, q, hc]
  · intro r hr
    rw [← List.map_take, castPairs, ← List.map_take] at hr
    rw [show c4selZ.take 98 = c4selZ.take 98 from rfl] at hr
    simp only [List.mem_map] at hr
    obtain ⟨p, hp, rfl⟩ := hr
    obtain ⟨w, hw, rfl⟩ := hp
    have hw0 : w.2 = 0 := by
      have : ∀ v ∈ c4selZ.take 98, v.2 = 0 := by decide
      exact this w hw
    simp only [hw0]
    norm_num

/-- Pointwise bounds on the Planck samples of the counterexample: for an
energy between `nmeV/9980` and `nmeV/9000` eV, the (negative) sample is
bounded below by minus the value obtained with the largest energy and the
smallest denominator `exp(a) - 1 ≥ 121`. -/
lemma c4_planck_pair {E : ℝ} (hlo : nmeV ℝ / 9980 ≤ E) (hhi : E ≤ nmeV ℝ / 9000) :
    -(q ℝ * (2 * pi ℝ / (h ℝ ^ 3 * c ℝ ^ 2) * (nmeV ℝ / 9000 * q ℝ) ^ 2 / 121))
      ≤ -q ℝ * (2 * pi ℝ / (h ℝ ^ 3 * c ℝ ^ 2) * (E * q ℝ) ^ 2 /
          (Real.exp (E * q ℝ / (kTeVOf ℝ 300 * q ℝ)) - 1)) ∧
    -q ℝ * (2 * pi ℝ / (h ℝ ^ 3 * c ℝ ^ 2) * (E * q ℝ) ^ 2 /
        (Real.exp (E * q ℝ / (kTeVOf ℝ 300 * q ℝ)) - 1)) ≤ 0 := by
  have hq := q_pos (α := ℝ)
  have hkT : (0 : ℝ) < kTeVOf ℝ 300 := by norm_num [kTeVOf]
  have harg : E * q ℝ / (kTeVOf ℝ 300 * q ℝ) = E / kTeVOf ℝ 300 := by
    rw [mul_div_mul_comm, div_self (ne_of_gt hq), mul_one]
  have hE0 : (0 : ℝ) < E := lt_of_lt_of_le (by norm_num [nmeV]) hlo
  have haLB : (48055 / 10000 : ℝ) ≤ E / kTeVOf ℝ 300 := by
    refine le_trans ?_ ((div_le_div_iff_of_pos_right hkT).mpr hlo)
    norm_num [nmeV, kTeVOf]
  have hexp : (122 : ℝ) ≤ Real.exp (E / kTeVOf ℝ 300) :=
    le_trans exp_48055_lb (Real.exp_le_exp.mpr haLB)
  have hden : (121 : ℝ) ≤ Real.exp (E / kTeVOf ℝ 300) - 1 := by linarith
  have hdpos : (0 : ℝ) < Real.exp (E / kTeVOf ℝ 300) - 1 := by linarith
  have hA : (0 : ℝ) ≤ 2 * pi ℝ / (h ℝ ^ 3 * c ℝ ^ 2) := by
    have h1 := pi_pos (α := ℝ)
    have h2 := h_pos (α := ℝ)
    have h3 := c_pos (α := ℝ)
    positivity
  have hnum : (E * q ℝ) ^ 2 ≤ (nmeV ℝ / 9000 * q ℝ) ^ 2 :=
    pow_le_pow_left₀ (mul_nonneg hE0.le hq.le) (mul_le_mul_of_nonneg_right hhi hq.le) 2
  have hfrac : 2 * pi ℝ / (h ℝ ^ 3 * c ℝ ^ 2) * (E * q ℝ) ^ 2 /
        (Real.exp (E / kTeVOf ℝ 300) - 1)
      ≤ 2 * pi ℝ / (h ℝ ^ 3 * c ℝ ^ 2) * (nmeV ℝ / 9000 * q ℝ) ^ 2 / 121 :=
    div_le_div₀ (mul_nonneg hA (sq_nonneg _))
      (mul_le_mul_of_nonneg_left hnum hA) (by norm_num) hden
  have hfrac0 : (0 : ℝ) ≤ 2 * pi ℝ / (h ℝ ^ 3 * c ℝ ^ 2) * (E * q ℝ) ^ 2 /
      (Real.exp (E / kTeVOf ℝ 300) - 1) :=
    div_nonneg (mul_nonneg hA (sq_nonneg _)) hdpos.le
  rw [harg]
  constructor
  · rw [neg_mul]
    exact neg_le_neg (mul_le_mul_of_nonneg_left hfrac hq.le)
  · rw [neg_mul]
    exact neg_nonpos_of_nonneg (mul_nonneg hq.le hfrac0)

/-- At the cutoff energy `nmeV/9980` the magnitude of the Planck sample is at
least the value obtained with the largest denominator
`exp(a) - 1 ≤ 489/4 - 1 = 485/4`. -/
lemma c4_planck_at_E98 :
    q ℝ * (2 * pi ℝ / (h ℝ ^ 3 * c ℝ ^ 2) * (nmeV ℝ / 9980 * q ℝ) ^ 2 / (485 / 4))
      ≤ q ℝ * (2 * pi ℝ / (h ℝ ^ 3 * c ℝ ^ 2) * (nmeV ℝ / 9980 * q ℝ) ^ 2 /
          (Real.exp (nmeV ℝ / 9980 * q ℝ / (kTeVOf ℝ 300 * q ℝ)) - 1)) := by
  have hq := q_pos (α := ℝ)
  have harg : nmeV ℝ / 9980 * q ℝ / (kTeVOf ℝ 300 * q ℝ) = nmeV ℝ / 9980 / kTeVOf ℝ 300 := by
    rw [mul_div_mul_comm, div_self (ne_of_gt hq), mul_one]
  rw [harg]
  have haLB : (48055 / 10000 : ℝ) ≤ nmeV ℝ / 9980 / kTeVOf ℝ 300 := by
    norm_num [nmeV, kTeVOf]
  have haUB : nmeV ℝ / 9980 / kTeVOf ℝ 300 ≤ 48056 / 10000 := by
    norm_num [nmeV, kTeVOf]
  have hexLB : (122 : ℝ) ≤ Real.exp (nmeV ℝ / 9980 / kTeVOf ℝ 300) :=
    le_trans exp_48055_lb (Real.exp_le_exp.mpr haLB)
  have hexUB : Real.exp (nmeV ℝ / 9980 / kTeVOf ℝ 300) ≤ 489 / 4 :=
    le_trans (Real.exp_le_exp.mpr haUB) exp_48056_ub
  have hA : (0 : ℝ) ≤ 2 * pi ℝ / (h ℝ ^ 3 * c ℝ ^ 2) * (nmeV ℝ / 9980 * q ℝ) ^ 2 := by
    have h1 := pi_pos (α := ℝ)
    have h2 := h_pos (α := ℝ)
    have h3 := c_pos (α := ℝ)
    positivity
  refine mul_le_mul_of_nonneg_left ?_ hq.le
  exact div_le_div_of_nonneg_left hA (by linarith) (by linarith)

/-- Bounds on the dark saturation current of the counterexample at the first
sweep gap: `120 ≤ aJ0 ≤ 345`. -/
lemma c4_J0_bounds (BMin BMax : ℝ) :
    120 ≤ aJ0Of Real.exp (kTeVOf ℝ 300) (castPairs ℝ c4specZ) BMin BMax (nmeV ℝ / 9980) 0 ∧
    aJ0Of Real.exp (kTeVOf ℝ 300) (castPairs ℝ c4specZ) BMin BMax (nmeV ℝ / 9980) 0
      ≤ 345 := by
  have hq := q_pos (α := ℝ)
  unfold aJ0Of trapz PlanckDistribution aEnergyOf aWavelengthOf
  rw [zip_self_map, c4_sel BMin BMax]
  -- wavelength chain and positivity, transported from the integer skeleton
  have hwmap : (castPairs ℝ c4selZ).map Prod.fst
      = (c4selZ.map Prod.fst).map (Int.cast : ℤ → ℝ) := by
    simp [castPairs, List.map_map, Function.comp]
  have hwchain : ((castPairs ℝ c4selZ).map Prod.fst).Chain' (· < ·) := by
    rw [hwmap]
    exact chain'_cast_of_incSortedB (by decide)
  have hwrange : ∀ r ∈ c4selZ, (9000 : ℤ) ≤ r.1 ∧ r.1 ≤ 9980 := by decide
  have hwpos : ∀ x ∈ (castPairs ℝ c4selZ).map Prod.fst, (0 : ℝ) < x := by
    intro x hx
    simp only [castPairs, List.map_map, List.mem_map] at hx
    obtain ⟨p, hp, rfl⟩ := hx
    have := (hwrange p hp).1
    simp only [Function.comp_apply]
    have h9 : ((9000 : ℤ) : ℝ) ≤ ((p.1 : ℤ) : ℝ) := by exact_mod_cast this
    norm_num at h9 ⊢
    linarith
  -- energy range of every selected sample
  have hErange : ∀ aE ∈ ((castPairs ℝ c4selZ).map Prod.fst).map fun w => nmeV ℝ / w,
      nmeV ℝ / 9980 ≤ aE ∧ aE ≤ nmeV ℝ / 9000 := by
    intro aE hAE
    obtain ⟨w, hw, rfl⟩ := List.mem_map.mp hAE
    rw [hwmap] at hw
    obtain ⟨wz, hwz, rfl⟩ := List.mem_map.mp hw
    obtain ⟨p, hp, rfl⟩ := List.mem_map.mp hwz
    obtain ⟨h1, h2⟩ := hwrange p hp
    have h1R : (9000 : ℝ) ≤ (p.1 : ℝ) := by exact_mod_cast h1
    have h2R : (p.1 : ℝ) ≤ 9980 := by exact_mod_cast h2
    have hwposR : (0 : ℝ) < (p.1 : ℝ) := by linarith
    constructor
    · exact div_le_div_of_nonneg_left nmeV_pos.le hwposR h2R
    · exact div_le_div_of_nonneg_left nmeV_pos.le (by norm_num) h1R
  -- the chain of abscissae of the Planck pair list
  have hfst : (Prod.fst ∘ fun aE : ℝ =>
      (aE, -q ℝ * (2 * pi ℝ / (h ℝ ^ 3 * c ℝ ^ 2) * (aE * q ℝ) ^ 2 /
        (Real.exp (aE * q ℝ / (kTeVOf ℝ 300 * q ℝ)) - 1))))
      = fun aE : ℝ => aE := rfl
  have hchainL : (((((castPairs ℝ c4selZ).map Prod.fst).map fun w => nmeV ℝ / w).map
      fun aE : ℝ => (aE, -q ℝ * (2 * pi ℝ / (h ℝ ^ 3 * c ℝ ^ 2) * (aE * q ℝ) ^ 2 /
        (Real.exp (aE * q ℝ / (kTeVOf ℝ 300 * q ℝ)) - 1)))).map Prod.fst).Chain'
      (· ≥ ·) := by
    rw [List.map_map, hfst]
    simp only [List.map_id']
    refine List.Chain'.imp (fun a b hab => le_of_lt hab) ?_
    exact chain_energies_of_chain_lt hwchain hwpos
  -- pointwise ordinate bounds on the Planck pair list
  have hyL : ∀ r ∈ (((castPairs ℝ c4selZ).map Prod.fst).map fun w => nmeV ℝ / w).map
      fun aE : ℝ => (aE, -q ℝ * (2 * pi ℝ / (h ℝ ^ 3 * c ℝ ^ 2) * (aE * q ℝ) ^ 2 /
        (Real.exp (aE * q ℝ / (kTeVOf ℝ 300 * q ℝ)) - 1))),
      -(q ℝ * (2 * pi ℝ / (h ℝ ^ 3 * c ℝ ^ 2) * (nmeV ℝ / 9000 * q ℝ) ^ 2 / 121)) ≤ r.2 ∧
      r.2 ≤ 0 := by
    intro r hr
    obtain ⟨aE, hAE, rfl⟩ := List.mem_map.mp hr
    obtain ⟨hE1, hE2⟩ := hErange aE hAE
    exact c4_planck_pair hE1 hE2
  refine ⟨?_, ?_⟩
  · -- lower bound via the suffix from index 97
    have hdrop : ((((castPairs ℝ c4selZ).map Prod.fst).map fun w => nmeV ℝ / w).map
        fun aE : ℝ => (aE, -q ℝ * (2 * pi ℝ / (h ℝ ^ 3 * c ℝ ^ 2) * (aE * q ℝ) ^ 2 /
          (Real.exp (aE * q ℝ / (kTeVOf ℝ 300 * q ℝ)) - 1)))).drop 97
        = [((nmeV ℝ / ((9097 : ℤ) : ℝ)),
            -q ℝ * (2 * pi ℝ / (h ℝ ^ 3 * c ℝ ^ 2) * (nmeV ℝ / ((9097 : ℤ) : ℝ) * q ℝ) ^ 2 /
              (Real.exp (nmeV ℝ / ((9097 : ℤ) : ℝ) * q ℝ / (kTeVOf ℝ 300 * q ℝ)) - 1))),
           ((nmeV ℝ / ((9980 : ℤ) : ℝ)),
            -q ℝ * (2 * pi ℝ / (h ℝ ^ 3 * c ℝ ^ 2) * (nmeV ℝ / ((9980 : ℤ) : ℝ) * q ℝ) ^ 2 /
              (Real.exp (nmeV ℝ / ((9980 : ℤ) : ℝ) * q ℝ / (kTeVOf ℝ 300 * q ℝ)) - 1)))] := by
      simp only [castPairs, ← List.map_drop]
      rw [show c4selZ.drop 97 = [((9097 : ℤ), (0 : ℤ)), ((9980 : ℤ), (10 : ℤ))] from by decide]
      rfl
    have hmono := trapzP_drop_le 97 hchainL (fun r hr => (hyL r hr).2)
    rw [hdrop] at hmono
    have hcast97 : ((9097 : ℤ) : ℝ) = 9097 := by norm_num
    have hcast98 : ((9980 : ℤ) : ℝ) = 9980 := by norm_num
    rw [hcast97, hcast98] at hmono
    -- name the two ordinates and bound the surviving trapezoid term
    have hy97 : -q ℝ * (2 * pi ℝ / (h ℝ ^ 3 * c ℝ ^ 2) * (nmeV ℝ / 9097 * q ℝ) ^ 2 /
        (Real.exp (nmeV ℝ / 9097 * q ℝ / (kTeVOf ℝ 300 * q ℝ)) - 1)) ≤ 0 := by
      refine (c4_planck_pair ?_ ?_).2 <;> norm_num [nmeV]
    have hy98 := c4_planck_at_E98
    have hspan : (0 : ℝ) < nmeV ℝ / 9097 - nmeV ℝ / 9980 := by norm_num [nmeV]
    have hterm : q ℝ * ((nmeV ℝ / 9097 - nmeV ℝ / 9980) *
          (q ℝ * (2 * pi ℝ / (h ℝ ^ 3 * c ℝ ^ 2) * (nmeV ℝ / 9980 * q ℝ) ^ 2 / (485 / 4)))
          / 2)
        ≤ q ℝ * trapzP [((nmeV ℝ / 9097),
            -q ℝ * (2 * pi ℝ / (h ℝ ^ 3 * c ℝ ^ 2) * (nmeV ℝ / 9097 * q ℝ) ^ 2 /
              (Real.exp (nmeV ℝ / 9097 * q ℝ / (kTeVOf ℝ 300 * q ℝ)) - 1))),
           ((nmeV ℝ / 9980),
            -q ℝ * (2 * pi ℝ / (h ℝ ^ 3 * c ℝ ^ 2) * (nmeV ℝ / 9980 * q ℝ) ^ 2 /
              (Real.exp (nmeV ℝ / 9980 * q ℝ / (kTeVOf ℝ 300 * q ℝ)) - 1)))] := by
      rw [trapzP]
      rw [show trapzP [((nmeV ℝ / 9980),
          -q ℝ * (2 * pi ℝ / (h ℝ ^ 3 * c ℝ ^ 2) * (nmeV ℝ / 9980 * q ℝ) ^ 2 /
            (Real.exp (nmeV ℝ / 9980 * q ℝ / (kTeVOf ℝ 300 * q ℝ)) - 1)))] = 0 from rfl,
        add_zero]
      refine mul_le_mul_of_nonneg_left ?_ hq.le
      nlinarith [mul_nonneg hspan.le (neg_nonneg.mpr hy97),
        mul_le_mul_of_nonneg_left hy98 hspan.le]
    have hfinal : (120 : ℝ) ≤ q ℝ * ((nmeV ℝ / 9097 - nmeV ℝ / 9980) *
        (q ℝ * (2 * pi ℝ / (h ℝ ^ 3 * c ℝ ^ 2) * (nmeV ℝ / 9980 * q ℝ) ^ 2 / (485 / 4)))
        / 2) := by
      norm_num [q, pi, h, c, nmeV]
    have hmul := mul_le_mul_of_nonneg_left hmono hq.le
    linarith
  · -- upper bound via the span bound with the pointwise maximum magnitude
    have hhead : ((((castPairs ℝ c4selZ).map Prod.fst).map fun w => nmeV ℝ / w).map
        fun aE : ℝ => (aE, -q ℝ * (2 * pi ℝ / (h ℝ ^ 3 * c ℝ ^ 2) * (aE * q ℝ) ^ 2 /
          (Real.exp (aE * q ℝ / (kTeVOf ℝ 300 * q ℝ)) - 1)))).head?
        = some ((nmeV ℝ / ((9000 : ℤ) : ℝ)),
            -q ℝ * (2 * pi ℝ / (h ℝ ^ 3 * c ℝ ^ 2) * (nmeV ℝ / ((9000 : ℤ) : ℝ) * q ℝ) ^ 2 /
              (Real.exp (nmeV ℝ / ((9000 : ℤ) : ℝ) * q ℝ / (kTeVOf ℝ 300 * q ℝ)) - 1))) := by
      rw [head?_map_list, head?_map_list, castPairs, head?_map_list, head?_map_list,
        show c4selZ.head? = some ((9000 : ℤ), (0 : ℤ)) from by decide]
      rfl
    have hlast : ((((castPairs ℝ c4selZ).map Prod.fst).map fun w => nmeV ℝ / w).map
        fun aE : ℝ => (aE, -q ℝ * (2 * pi ℝ / (h ℝ ^ 3 * c ℝ ^ 2) * (aE * q ℝ) ^ 2 /
          (Real.exp (aE * q ℝ / (kTeVOf ℝ 300 * q ℝ)) - 1)))).getLast?
        = some ((nmeV ℝ / ((9980 : ℤ) : ℝ)),
            -q ℝ * (2 * pi ℝ / (h ℝ ^ 3 * c ℝ ^ 2) * (nmeV ℝ / ((9980 : ℤ) : ℝ) * q ℝ) ^ 2 /
              (Real.exp (nmeV ℝ / ((9980 : ℤ) : ℝ) * q ℝ / (kTeVOf ℝ 300 * q ℝ)) - 1))) := by
      rw [getLast?_map_list, getLast?_map_list, castPairs, getLast?_map_list,
        getLast?_map_list,
        show c4selZ.getLast? = some ((9980 : ℤ), (10 : ℤ)) from by decide]
      rfl
    have hspanb := trapzP_le_span _ _ _ hchainL hyL hhead hlast
    have hmul := mul_le_mul_of_nonneg_left hspanb hq.le
    refine le_trans hmul ?_
    have hcast90 : ((9000 : ℤ) : ℝ) = 9000 := by norm_num
    have hcast98 : ((9980 : ℤ) : ℝ) = 9980 := by norm_num
    rw [hcast90, hcast98]
    norm_num [q, pi, h, c, nmeV]

lemma zipWith_map_self {α β γ : Type*} (f : β → α → γ) (g : α → β) :
    ∀ l : List α, List.zipWith f (l.map g) l = l.map fun x => f (g x) x
  | [] => rfl
  | a :: t => by
    simp only [List.map_cons, List.zipWith_cons_cons]
    rw [zipWith_map_self f g t]

lemma c4_BMin : BandgapMinOf (castPairs ℝ c4specZ) = nmeV ℝ / 9980 := by
  unfold BandgapMinOf WavelengthMaxOf
  rw [List.getLastD_eq_getLast?, castPairs, getLast?_map_list,
    show c4specZ.getLast? = some ((9990 : ℤ), (10 : ℤ)) from by decide]
  norm_num

lemma c4_BMax : BandgapMaxOf (castPairs ℝ c4specZ) = nmeV ℝ / 9010 := by
  unfold BandgapMaxOf WavelengthMinOf
  rw [show (castPairs ℝ c4specZ).headD (0, 0)
      = (((9000 : ℤ) : ℝ), ((0 : ℤ) : ℝ)) from rfl]
  norm_num

lemma c4_range_head :
    ∃ t, BandgapRangeOf (castPairs ℝ c4specZ) = (nmeV ℝ / 9980) :: t := by
  unfold BandgapRangeOf
  rw [show (500 : ℕ) = 499 + 1 from rfl, List.range_succ_eq_map]
  simp only [List.map_cons, Nat.cast_zero, zero_mul, add_zero]
  rw [c4_BMin]
  exact ⟨_, rfl⟩

lemma c4_power : SolarPower (castPairs ℝ c4specZ) = 4515 := by
  rw [SolarPower_eq_trapzP, trapzP_castPairs]
  rw [show trapzP2 c4specZ = 9030 from by decide]
  norm_num

lemma c4spec_ok : specDataOK (castPairs ℝ c4specZ) :=
  specDataOK_cast c4specZ (by decide) (by decide) (by decide) (by decide)

lemma c4spec_load : loadSpectrumOK (castPairs ℝ c4specZ) := by
  refine ⟨c4spec_ok, ?_⟩
  rw [c4_power]
  norm_num

/-- C4 counterexample: a valid spectrum (passes every `loadSpectrum` check)
on which, at `SolarConcentration = 1000` and temperature 300 K, the very
first sweep sample records an efficiency strictly greater than 100 % — and
so does the tracked maximum `self.SQ_Efficiency`.  The claim that every
produced efficiency lies in `[0, 100]` is therefore false. -/
theorem C4_counterexample :
    (specDataOK (castPairs ℝ c4specZ) ∧ loadSpectrumOK (castPairs ℝ c4specZ)) ∧
    (∃ e ∈ runSweep Real.exp Real.log (castPairs ℝ c4specZ) 1000 (kTeVOf ℝ 300), 100 < e) ∧
    100 < sweepMax Real.exp Real.log (castPairs ℝ c4specZ) 1000 (kTeVOf ℝ 300) := by
  have hq := q_pos (α := ℝ)
  have hkT : (0 : ℝ) < kTeVOf ℝ 300 := by norm_num [kTeVOf]
  obtain ⟨hlen100, hwl, hirr, hchain⟩ := c4spec_ok
  have hpos : ∀ r ∈ castPairs ℝ c4specZ, (0 : ℝ) < r.1 := fun r hr =>
    lt_of_lt_of_le (by norm_num) (hwl r hr).1
  have hin : ¬(nmeV ℝ / 9980 < BandgapMinOf (castPairs ℝ c4specZ) ∨
      BandgapMaxOf (castPairs ℝ c4specZ) < nmeV ℝ / 9980) := by
    rw [c4_BMin, c4_BMax]
    push_neg
    constructor
    · exact le_refl _
    · norm_num [nmeV]
  have hsellen : 2 ≤ (selectedRows (castPairs ℝ c4specZ) (BandgapMinOf (castPairs ℝ c4specZ))
      (BandgapMaxOf (castPairs ℝ c4specZ)) (nmeV ℝ / 9980) 0).length := by
    rw [c4_sel, castPairs, List.length_map, show c4selZ.length = 99 from by decide]
    norm_num
  have hJsc := c4_Jsc_bounds (BandgapMinOf (castPairs ℝ c4specZ))
    (BandgapMaxOf (castPairs ℝ c4specZ))
  have hJ0b := c4_J0_bounds (BandgapMinOf (castPairs ℝ c4specZ))
    (BandgapMaxOf (castPairs ℝ c4specZ))
  have hJscpos : 0 < aJSCOf (castPairs ℝ c4specZ) 1000 (BandgapMinOf (castPairs ℝ c4specZ))
      (BandgapMaxOf (castPairs ℝ c4specZ)) (nmeV ℝ / 9980) 0 :=
    lt_of_lt_of_le (by norm_num) hJsc.1
  obtain ⟨res, hres, hfJSC, hfVOC, hfV, hfC, hfE⟩ :=
    calculateEfficiency_success Real.exp Real.log (castPairs ℝ c4specZ)
      (SolarPower (castPairs ℝ c4specZ)) 1000 (kTeVOf ℝ 300)
      (BandgapMinOf (castPairs ℝ c4specZ)) (BandgapMaxOf (castPairs ℝ c4specZ))
      (nmeV ℝ / 9980) 0
      Real.exp_strictMono Real.exp_zero (fun x hx => Real.exp_log hx) hkT hpos hchain
      hin hsellen hJscpos
  set Jsc := aJSCOf (castPairs ℝ c4specZ) 1000 (BandgapMinOf (castPairs ℝ c4specZ))
    (BandgapMaxOf (castPairs ℝ c4specZ)) (nmeV ℝ / 9980) 0 with hJscd
  set J0v := aJ0Of Real.exp (kTeVOf ℝ 300) (castPairs ℝ c4specZ)
    (BandgapMinOf (castPairs ℝ c4specZ)) (BandgapMaxOf (castPairs ℝ c4specZ))
    (nmeV ℝ / 9980) 0 with hJ0d
  -- the sweep starts with this solve
  obtain ⟨trest, hrange⟩ := c4_range_head
  have hsweep : runSweep Real.exp Real.log (castPairs ℝ c4specZ) 1000 (kTeVOf ℝ 300)
      = res.aEff :: sweepGo Real.exp Real.log (castPairs ℝ c4specZ)
          (SolarPower (castPairs ℝ c4specZ)) 1000 (kTeVOf ℝ 300)
          (BandgapMinOf (castPairs ℝ c4specZ)) (BandgapMaxOf (castPairs ℝ c4specZ)) trest := by
    unfold runSweep
    rw [hrange, sweepGo, hres]
  -- open-circuit voltage in terms of the certified bounds
  have hVOCval : res.aVOC = kTeVOf ℝ 300 * Real.log (Jsc / J0v + 1) := by
    rw [hfVOC]
    rfl
  have hJ0pos : (0 : ℝ) < J0v := lt_of_lt_of_le (by norm_num) hJ0b.1
  have hr1lb : (103010 : ℝ) ≤ Jsc / J0v + 1 := by
    have h1 : (35538155 : ℝ) / 345 ≤ Jsc / J0v :=
      div_le_div₀ (le_trans (by norm_num) hJsc.1) hJsc.1 hJ0pos hJ0b.2
    have h2 : (103009 : ℝ) ≤ 35538155 / 345 := by norm_num
    linarith
  have hr1ub : Jsc / J0v + 1 ≤ (296200 : ℝ) := by
    have h1 : Jsc / J0v ≤ 35538156 / 120 :=
      div_le_div₀ (by norm_num) hJsc.2 (by norm_num) hJ0b.1
    have h2 : (35538156 : ℝ) / 120 ≤ 296199 := by norm_num
    linarith
  have hr1pos : (0 : ℝ) < Jsc / J0v + 1 := by linarith
  have hlogLB : (1153 / 100 : ℝ) ≤ Real.log (Jsc / J0v + 1) := by
    rw [Real.le_log_iff_exp_le hr1pos]
    exact le_trans exp_1153_ub (by linarith)
  have hlogUB : Real.log (Jsc / J0v + 1) ≤ 1261 / 100 := by
    rw [Real.log_le_iff_le_exp hr1pos]
    exact le_trans hr1ub exp_1261_lb
  have hlogpos : (0 : ℝ) < Real.log (Jsc / J0v + 1) :=
    lt_of_lt_of_le (by norm_num) hlogLB
  -- rewrite current and products over the explicit voltage grid
  rw [hfC, hfV] at hfE
  have hprod : List.zipWith (fun aJ aV => aJ * aV)
      ((aVoltageOf (res.aVOC / 500)).map (diodeJ Real.exp (kTeVOf ℝ 300) res.aJSC J0v))
      (aVoltageOf (res.aVOC / 500))
    = (aVoltageOf (res.aVOC / 500)).map
        (fun v => diodeJ Real.exp (kTeVOf ℝ 300) res.aJSC J0v v * v) :=
    zipWith_map_self _ _ _
  -- the grid sample at index 400
  have hv400mem : ((400 : ℕ) : ℝ) * (res.aVOC / 500) ∈ aVoltageOf (res.aVOC / 500) := by
    unfold aVoltageOf
    exact List.mem_map.mpr ⟨400, List.mem_range.mpr (by norm_num), rfl⟩
  have hpmem : diodeJ Real.exp (kTeVOf ℝ 300) res.aJSC J0v
        (((400 : ℕ) : ℝ) * (res.aVOC / 500)) * (((400 : ℕ) : ℝ) * (res.aVOC / 500))
      ∈ List.zipWith (fun aJ aV => aJ * aV)
          ((aVoltageOf (res.aVOC / 500)).map (diodeJ Real.exp (kTeVOf ℝ 300) res.aJSC J0v))
          (aVoltageOf (res.aVOC / 500)) := by
    rw [hprod]
    exact List.mem_map.mpr ⟨_, hv400mem, rfl⟩
  -- bound the diode current at sample 400
  have hJv : diodeJ Real.exp (kTeVOf ℝ 300) res.aJSC J0v
      (((400 : ℕ) : ℝ) * (res.aVOC / 500)) ≤ -27240215 := by
    unfold diodeJ
    have hkne : kTeVOf ℝ 300 ≠ 0 := ne_of_gt hkT
    have harg : ((400 : ℕ) : ℝ) * (res.aVOC / 500) / kTeVOf ℝ 300
        = 4 / 5 * Real.log (Jsc / J0v + 1) := by
      rw [hVOCval]
      push_cast
      field_simp
      ring
    rw [harg, hfJSC]
    have hargUB : 4 / 5 * Real.log (Jsc / J0v + 1) ≤ 10088 / 1000 := by linarith
    have hexpUB : Real.exp (4 / 5 * Real.log (Jsc / J0v + 1)) ≤ 24053 :=
      le_trans (Real.exp_le_exp.mpr hargUB) exp_10088_ub
    have hexpLB : (1 : ℝ) ≤ Real.exp (4 / 5 * Real.log (Jsc / J0v + 1)) := by
      have hx := Real.add_one_le_exp (4 / 5 * Real.log (Jsc / J0v + 1))
      linarith
    have hJ0term : J0v * (Real.exp (4 / 5 * Real.log (Jsc / J0v + 1)) - 1) ≤ 345 * 24052 :=
      mul_le_mul hJ0b.2 (by linarith) (by linarith) (by norm_num)
    linarith [hJsc.1]
  -- bound the voltage at sample 400 from below
  have hkTval : kTeVOf ℝ 300 = 2585202874091 / 10 ^ 14 := by norm_num [kTeVOf]
  have hv400LB : (2384 : ℝ) / 10000 ≤ ((400 : ℕ) : ℝ) * (res.aVOC / 500) := by
    rw [hVOCval, hkTval]
    push_cast
    nlinarith [hlogLB]
  have hv400pos : (0 : ℝ) ≤ ((400 : ℕ) : ℝ) * (res.aVOC / 500) :=
    le_trans (by norm_num) hv400LB
  -- the product at sample 400 is very negative
  have hp400UB : diodeJ Real.exp (kTeVOf ℝ 300) res.aJSC J0v
        (((400 : ℕ) : ℝ) * (res.aVOC / 500)) * (((400 : ℕ) : ℝ) * (res.aVOC / 500))
      ≤ -27240215 * (2384 / 10000) := by
    calc diodeJ Real.exp (kTeVOf ℝ 300) res.aJSC J0v
          (((400 : ℕ) : ℝ) * (res.aVOC / 500)) * (((400 : ℕ) : ℝ) * (res.aVOC / 500))
        ≤ -27240215 * (((400 : ℕ) : ℝ) * (res.aVOC / 500)) :=
          mul_le_mul_of_nonneg_right hJv hv400pos
      _ ≤ -27240215 * (2384 / 10000) :=
          mul_le_mul_of_nonpos_left hv400LB (by norm_num)
  have hmin := npMinD_le_mem hpmem
  -- the efficiency of the first sample exceeds 100
  have haEff : (100 : ℝ) < res.aEff := by
    rw [hfE, c4_power]
    rw [lt_div_iff₀ (by norm_num : (0 : ℝ) < 4515 * 1000)]
    linarith [le_trans hmin hp400UB]
  have hmem : res.aEff ∈ runSweep Real.exp Real.log (castPairs ℝ c4specZ) 1000
      (kTeVOf ℝ 300) := by
    rw [hsweep]
    exact List.mem_cons_self _ _
  exact ⟨⟨c4spec_ok, c4spec_load⟩, ⟨res.aEff, hmem, haEff⟩,
    lt_of_lt_of_le haEff (mem_le_foldl_max hmem)⟩

end SQ
